import Mathlib

/-!
Verification of the v8go C glue layer (src/v8go.cc) against its
natural-language specification.

The development is a shallow embedding: the mutable C heap of `m_ctx` /
`m_value` records is modelled as an explicit `State` of association
lists keyed by numeric ids (one id per `new`-allocated record), and each
exported C function becomes a Lean function on `State`.  Engine (V8)
outcomes that the glue code merely consumes — script results, exception
states, JSON serialisation — enter as parameters, since the engine is an
external collaborator.  Dereferencing a dangling pointer is modelled by
`Option`: a `none` result marks undefined behaviour, never a value.
-/

/-- One V8-heap-resident value, abstracted to the shape the glue layer
inspects.  Strings and symbols are the `Name` values (`Value::IsName`);
`vObj` stands for any other heap object (objects, functions, promises),
identified by an opaque tag. -/
inductive V8Value where
  | vInt (n : Int)
  | vStr (s : String)
  | vSym (d : String)
  | vBool (b : Bool)
  | vNull
  | vUndef
  | vErr (kind : Nat) (msg : String)
  | vObj (tag : Nat)
deriving DecidableEq

/-- Value::IsName from the V8 API: true exactly for strings and symbols. -/
def V8Value.isName : V8Value → Bool
  | .vStr _ => true
  | .vSym _ => true
  | _ => false

/-- The m_value struct of v8go.cc: owning isolate, owning context pointer
(nullable, as in the source), and the persistent reference, modelled by
the value it resolves to. -/
structure MValue where
  iso : Nat
  ctx : Option Nat
  ptr : V8Value
deriving DecidableEq

/-- The m_ctx struct of v8go.cc: owning isolate, the embedder-slot-1
identity stamped by NewContext (absent on the internal context made by
NewIsolate), and the `vals` registry of tracked value ids in
registration order. -/
structure MCtx where
  iso : Nat
  embRef : Option Nat
  vals : List Nat
deriving DecidableEq

/-- The C heap as the glue layer sees it: live m_ctx records, live
m_value records, the per-isolate internal context (iso->GetData(0), set
by NewIsolate), and a fresh-id counter standing for the allocator. -/
structure State where
  ctxs : List (Nat × MCtx)
  values : List (Nat × MValue)
  internalOf : List (Nat × Nat)
  next : Nat
deriving DecidableEq

/-- First-match lookup in an association list keyed by Nat. -/
def lookupA {β : Type} (k : Nat) : List (Nat × β) → Option β
  | [] => none
  | (k', v) :: rest => if k' = k then some v else lookupA k rest

/-- Pointwise update of every entry carrying key `k`. -/
def updateA {β : Type} (k : Nat) (f : β → β) : List (Nat × β) → List (Nat × β)
  | [] => []
  | (k', v) :: rest => (k', if k' = k then f v else v) :: updateA k f rest

/-- Removal of every entry carrying key `k`. -/
def removeA {β : Type} (k : Nat) : List (Nat × β) → List (Nat × β)
  | [] => []
  | (k', v) :: rest =>
    if k' = k then removeA k rest else (k', v) :: removeA k rest

/-! ### Error Translator (ExceptionError, v8go.cc lines 47-102) -/

/-- The v8::TryCatch / message state that ExceptionError reads, with the
engine-supplied Maybe results (line number, start column, stack trace)
as optional fields. -/
structure MsgInfo where
  origin : String
  line : Option Int
  startColumn : Option Int
deriving DecidableEq

/-- Pending exception state: HasTerminated flag, the UTF-8 text of the
exception value, the optional source Message, and the optional stack
trace text. -/
structure TryCatchSt where
  hasTerminated : Bool
  exceptionText : String
  message : Option MsgInfo
  stackText : Option String
deriving DecidableEq

/-- The RtnError record of v8go.h: three nullable C strings. -/
structure RtnError where
  msg : Option String
  location : Option String
  stack : Option String
deriving DecidableEq

/-- CopyString(std::string): always yields a (possibly empty) C string. -/
def copyStringStd (s : String) : String := s

/-- CopyString(String::Utf8Value): yields nullptr when the value has
length zero, else the copied text. -/
def copyStringUtf8 (s : String) : Option String :=
  if s.length = 0 then none else some s

/-- Sentinel message for forcibly terminated execution (v8go.cc line 71). -/
def terminationMessage : String :=
  "ExecutionTerminated: script execution has been terminated"

/-- Location formatting of ExceptionError lines 80-92: origin text, then
a colon-prefixed line number when the engine supplies one, then a
colon-prefixed start column plus one (0-based to 1-based) when the
engine supplies one. -/
def formatLocation (m : MsgInfo) : String :=
  let s1 := m.origin
  let s2 := match m.line with
    | some l => s1 ++ ":" ++ toString l
    | none => s1
  match m.startColumn with
  | some c => s2 ++ ":" ++ toString (c + 1)
  | none => s2

/-- ExceptionError (v8go.cc lines 62-102): a terminated state
short-circuits to the sentinel record; otherwise msg is the copied
exception text (nullptr when empty), location is formatted from the
Message when one exists (CopyString on std::string, never null), and
stack is the copied stack-trace text when obtainable. -/
def ExceptionError (tc : TryCatchSt) : RtnError :=
  if tc.hasTerminated then
    { msg := some (copyStringStd terminationMessage),
      location := none, stack := none }
  else
    { msg := copyStringUtf8 tc.exceptionText,
      location := tc.message.map (fun m => copyStringStd (formatLocation m)),
      stack := tc.stackText.bind copyStringUtf8 }

/-! ### Template Builder (v8go.cc lines 208-270) -/

/-- A property installed on a template is either a value or a
sub-template handle (Template::Set accepts both). -/
inductive TProp where
  | pval (v : V8Value)
  | ptmpl (t : Nat)
deriving DecidableEq

/-- The m_template struct plus the property list its Persistent template
accumulates through Template::Set: entries are (name key, property,
attributes) in installation order. -/
structure MTemplate where
  iso : Nat
  entries : List (V8Value × TProp × Int)
deriving DecidableEq

/-- TemplateSetAnyValue (v8go.cc lines 233-245): a key that is not a
Name leaves the template untouched and reports false; otherwise the
(key, value, attributes) property is installed and true is reported. -/
def TemplateSetAnyValue (tm : MTemplate) (key val : V8Value)
    (attributes : Int) : MTemplate × Bool :=
  if !key.isName then (tm, false)
  else ({ tm with entries := tm.entries ++ [(key, .pval val, attributes)] },
        true)

/-- TemplateSetAnyTemplate (v8go.cc lines 258-270): same guard, with a
sub-template as the property. -/
def TemplateSetAnyTemplate (tm : MTemplate) (key : V8Value) (obj : Nat)
    (attributes : Int) : MTemplate × Bool :=
  if !key.isName then (tm, false)
  else ({ tm with entries := tm.entries ++ [(key, .ptmpl obj, attributes)] },
        true)

/-! ### Heap statistics (IsolationGetHeapStatistics, v8go.cc 188-206) -/

/-- The v8::HeapStatistics the engine fills in, with the eleven
accessors the glue code reads. -/
structure HeapStats where
  total_heap_size : Nat
  total_heap_size_executable : Nat
  total_physical_size : Nat
  total_available_size : Nat
  used_heap_size : Nat
  heap_size_limit : Nat
  malloced_memory : Nat
  external_memory : Nat
  peak_malloced_memory : Nat
  number_of_native_contexts : Nat
  number_of_detached_contexts : Nat
deriving DecidableEq

/-- The IsolateHStatistics return record, with fields in the order of
the aggregate initializer at v8go.cc lines 195-205 (the struct
declaration lives in v8go.h). -/
structure IsolateHStatistics where
  totalHeapSize : Nat
  totalHeapSizeExecutable : Nat
  totalPhysicalSize : Nat
  totalAvailableSize : Nat
  usedHeapSize : Nat
  heapSizeLimit : Nat
  mallocedMemory : Nat
  externalMemory : Nat
  peakMallocedMemory : Nat
  numberOfNativeContexts : Nat
  numberOfDetachedContexts : Nat
deriving DecidableEq

/-- Field list of the return record, in declaration order; its length is
the number of numeric fields of the record. -/
def IsolateHStatistics.fieldList (s : IsolateHStatistics) : List Nat :=
  [s.totalHeapSize, s.totalHeapSizeExecutable, s.totalPhysicalSize,
   s.totalAvailableSize, s.usedHeapSize, s.heapSizeLimit, s.mallocedMemory,
   s.externalMemory, s.peakMallocedMemory, s.numberOfNativeContexts,
   s.numberOfDetachedContexts]

/-- IsolationGetHeapStatistics (v8go.cc lines 188-206): a null isolate
yields the zero-initialized record; otherwise the record is filled from
the engine's heap statistics, one accessor per field. -/
def IsolationGetHeapStatistics (iso : Option Nat) (hs : HeapStats) :
    IsolateHStatistics :=
  match iso with
  | none => ⟨0, 0, 0, 0, 0, 0, 0, 0, 0, 0, 0⟩
  | some _ =>
    ⟨hs.total_heap_size, hs.total_heap_size_executable,
     hs.total_physical_size, hs.total_available_size, hs.used_heap_size,
     hs.heap_size_limit, hs.malloced_memory, hs.external_memory,
     hs.peak_malloced_memory, hs.number_of_native_contexts,
     hs.number_of_detached_contexts⟩

/-! ### Handle Registry and Value Wrapper lifecycle (v8go.cc 104-123) -/

/-- tracked_value (v8go.cc lines 104-123): appends the value id to the
registry `vals` of the given context and returns the very same id.  The
comment block in the source states the registry is append-only until
ContextFree. -/
def tracked_value (st : State) (cid vid : Nat) : State × Nat :=
  ({ st with
      ctxs := updateA cid (fun mc => { mc with vals := mc.vals ++ [vid] })
        st.ctxs },
   vid)

/-- Allocation of a fresh m_value (`new m_value` followed by the three
field assignments, the pattern of every value-creating function): the
record enters the value heap under a fresh id. -/
def allocValue (st : State) (iso cid : Nat) (v : V8Value) : State × Nat :=
  ({ st with
      values := (st.next, ⟨iso, some cid, v⟩) :: st.values,
      next := st.next + 1 },
   st.next)

/-- Allocation followed by tracked_value — the creation pattern
`rtn.value = tracked_value(ctx, val)` shared by every value-creating
function in the source. -/
def createTracked (st : State) (iso cid : Nat) (v : V8Value) : State × Nat :=
  let r := allocValue st iso cid v
  tracked_value r.1 cid r.2

/-- Iterated createTracked in list order — the argument-wrapping loop of
FunctionTemplateCallback (v8go.cc lines 333-340). -/
def createTrackedList (st : State) (iso cid : Nat) :
    List V8Value → State × List Nat
  | [] => (st, [])
  | v :: rest =>
    let r1 := createTracked st iso cid v
    let r2 := createTrackedList r1.1 iso cid rest
    (r2.1, r1.2 :: r2.2)

/-! ### Isolate and Context lifecycle (v8go.cc 143-160, 402-442) -/

/-- NewIsolate (v8go.cc lines 143-160): a fresh isolate plus its
internal context (empty registry, no embedder stamp), recorded in
iso->SetData(0) via `internalOf`. -/
def NewIsolate (st : State) : State × Nat :=
  let isoId := st.next
  let cid := st.next + 1
  ({ ctxs := (cid, ⟨isoId, none, []⟩) :: st.ctxs,
     values := st.values,
     internalOf := (isoId, cid) :: st.internalOf,
     next := st.next + 2 },
   isoId)

/-- NewContext (v8go.cc lines 402-428): a fresh m_ctx with an empty
registry, stamped with the integer identity `r` in embedder slot 1.  The
optional global template only shapes the V8 global object, which this
registry model does not inspect. -/
def NewContext (st : State) (iso : Nat) (gt : Option MTemplate) (r : Nat) :
    State × Nat :=
  let cid := st.next
  ({ st with
      ctxs := (cid, ⟨iso, some r, []⟩) :: st.ctxs,
      next := st.next + 1 },
   cid)

/-- One release action performed by ContextFree, in program order:
resetting the persistent global-scope handle, or resetting and deleting
one tracked value. -/
inductive RelEvent where
  | scope
  | value (vid : Nat)
deriving DecidableEq

/-- ContextFree (v8go.cc lines 430-442): a null pointer is a no-op;
a live pointer first resets the context's global-scope handle, then
resets and deletes every value of the registry in registration order,
then deletes the m_ctx record.  Passing a pointer that is no longer in
the heap dereferences freed memory, so the model yields `none`. -/
def ContextFree (st : State) (p : Option Nat) :
    Option (State × List RelEvent) :=
  match p with
  | none => some (st, [])
  | some cid =>
    (lookupA cid st.ctxs).map fun mc =>
      ({ st with
          ctxs := removeA cid st.ctxs,
          values := st.values.filter (fun q => decide (q.1 ∉ mc.vals)) },
       .scope :: mc.vals.map .value)

/-- Modelled from the spec: the host-side sandbox handle of `destroy` /
`freeSandbox` (section 4.2 and the section 8 idempotence property).  The
host wrapper that owns the `ContextPtr` is part of this repository but
not under src/; per the spec it passes its stored pointer to the native
free and a freed handle behaves like the null sandbox, which the model
realises by nulling the stored pointer after a successful free. -/
def freeSandbox (st : State) (h : Option Nat) :
    Option ((State × Option Nat) × List RelEvent) :=
  match h with
  | none => (ContextFree st none).map fun r => ((r.1, none), r.2)
  | some cid => (ContextFree st (some cid)).map fun r => ((r.1, none), r.2)

/-! ### Value-creating operations -/

/-- The RtnValue pair of v8go.h: a nullable value pointer and a nullable
structured error. -/
structure RtnValue where
  value : Option Nat
  error : Option RtnError
deriving DecidableEq

/-- RunScript (v8go.cc lines 444-477): on any of the three failure exits
(string conversion, compile, run) the TryCatch state is translated and
no value is created; on success the result is wrapped and tracked in the
script's context.  The engine outcome is the `run` parameter. -/
def RunScript (st : State) (cid : Nat) (source origin : String)
    (run : Except TryCatchSt V8Value) : Option (State × RtnValue) :=
  (lookupA cid st.ctxs).map fun mc =>
    match run with
    | .error tc => (st, ⟨none, some (ExceptionError tc)⟩)
    | .ok v =>
      let r := createTracked st mc.iso cid v
      (r.1, ⟨some r.2, none⟩)

/-- ContextGlobal (v8go.cc lines 537-547): wraps the context's global
object and tracks it in that context. -/
def ContextGlobal (st : State) (cid : Nat) (g : V8Value) :
    Option (State × Nat) :=
  (lookupA cid st.ctxs).map fun mc => createTracked st mc.iso cid g

/-- Context resolution of the LOCAL_VALUE macro (v8go.cc lines 551-566):
the value's own context when set, else the isolate's internal context. -/
def resolveCtx (st : State) (mv : MValue) : Option Nat :=
  match mv.ctx with
  | some cid => some cid
  | none => lookupA mv.iso st.internalOf

/-- ObjectGetAnyKey (v8go.cc lines 1163-1181), standing for the shared
shape of ObjectGet and ObjectGetIdx as well: under LOCAL_VALUE the
receiver's context is resolved, the engine performs the property read
(`res`), and a successful read is wrapped and tracked in the resolved
context. -/
def ObjectGetAnyKey (st : State) (vid keyVid : Nat)
    (res : Except TryCatchSt V8Value) : Option (State × RtnValue) :=
  (lookupA vid st.values).bind fun mv =>
  (resolveCtx st mv).bind fun cid =>
  (lookupA cid st.ctxs).map fun _ =>
    match res with
    | .error tc => (st, ⟨none, some (ExceptionError tc)⟩)
    | .ok v =>
      let r := createTracked st mv.iso cid v
      (r.1, ⟨some r.2, none⟩)

/-- ObjectTemplateNewInstance (v8go.cc lines 285-306): instantiation
failure is translated; a fresh instance is wrapped and tracked in the
supplied context, with the template's isolate. -/
def ObjectTemplateNewInstance (st : State) (tm : MTemplate) (cid : Nat)
    (res : Except TryCatchSt V8Value) : Option (State × RtnValue) :=
  (lookupA cid st.ctxs).map fun _ =>
    match res with
    | .error tc => (st, ⟨none, some (ExceptionError tc)⟩)
    | .ok v =>
      let r := createTracked st tm.iso cid v
      (r.1, ⟨some r.2, none⟩)

/-- FunctionTemplateGetFunction (v8go.cc lines 369-389): same shape as
template instantiation, realizing the template as a function in the
supplied context. -/
def FunctionTemplateGetFunction (st : State) (tm : MTemplate) (cid : Nat)
    (res : Except TryCatchSt V8Value) : Option (State × RtnValue) :=
  (lookupA cid st.ctxs).map fun _ =>
    match res with
    | .error tc => (st, ⟨none, some (ExceptionError tc)⟩)
    | .ok v =>
      let r := createTracked st tm.iso cid v
      (r.1, ⟨some r.2, none⟩)

/-- NewPromiseResolver (v8go.cc lines 1298-1312): a fresh resolver is
wrapped and tracked in the supplied context. -/
def NewPromiseResolver (st : State) (cid : Nat)
    (res : Except TryCatchSt V8Value) : Option (State × RtnValue) :=
  (lookupA cid st.ctxs).map fun mc =>
    match res with
    | .error tc => (st, ⟨none, some (ExceptionError tc)⟩)
    | .ok v =>
      let r := createTracked st mc.iso cid v
      (r.1, ⟨some r.2, none⟩)

/-- PromiseResolverGetPromise (v8go.cc lines 1314-1324): the resolver's
promise is wrapped and tracked in the resolver's resolved context; the
engine read cannot fail. -/
def PromiseResolverGetPromise (st : State) (vid : Nat) (promiseV : V8Value) :
    Option (State × Nat) :=
  (lookupA vid st.values).bind fun mv =>
  (resolveCtx st mv).bind fun cid =>
  (lookupA cid st.ctxs).map fun _ =>
    createTracked st mv.iso cid promiseV

/-- PromiseThen (v8go.cc lines 1344-1367), standing for PromiseThen2 and
PromiseCatch as well: the continuation function construction and the
Then call may fail (translated); the resulting promise is wrapped and
tracked in the promise's resolved context. -/
def PromiseThen (st : State) (vid cbRef : Nat)
    (res : Except TryCatchSt V8Value) : Option (State × RtnValue) :=
  (lookupA vid st.values).bind fun mv =>
  (resolveCtx st mv).bind fun cid =>
  (lookupA cid st.ctxs).map fun _ =>
    match res with
    | .error tc => (st, ⟨none, some (ExceptionError tc)⟩)
    | .ok v =>
      let r := createTracked st mv.iso cid v
      (r.1, ⟨some r.2, none⟩)

/-- FunctionCall (v8go.cc lines 1450-1471), standing for
FunctionNewInstance as well: on success the call result is wrapped and
tracked in the function value's resolved context. -/
def FunctionCall (st : State) (vid recvVid : Nat) (argVids : List Nat)
    (res : Except TryCatchSt V8Value) : Option (State × RtnValue) :=
  (lookupA vid st.values).bind fun mv =>
  (resolveCtx st mv).bind fun cid =>
  (lookupA cid st.ctxs).map fun _ =>
    match res with
    | .error tc => (st, ⟨none, some (ExceptionError tc)⟩)
    | .ok v =>
      let r := createTracked st mv.iso cid v
      (r.1, ⟨some r.2, none⟩)

/-! ### Callback Bridge (FunctionTemplateCallback, v8go.cc 310-349) -/

/-- Observable outcome of one bridge invocation: the wrapper ids passed
to the host (receiver first, then the arguments), the dispatch
identifiers, the positional-argument count handed over, and the value
set as the call's result. -/
structure CbOut where
  thisAndArgs : List Nat
  dispatchCtxRef : Nat
  dispatchCbRef : Nat
  dispatchArgsCount : Nat
  result : V8Value
deriving DecidableEq

/-- FunctionTemplateCallback (v8go.cc lines 310-349): the invoking
context is recovered by reading the identity stamped in embedder slot 1
of the current context and resolving it through the Go-side context
registry `gc` (goContext); the registration id is read from the callback
data; the receiver and each positional argument are wrapped and tracked
in the recovered context; the host dispatch `gf` (goFunctionCallback)
receives the identity, the registration id and the wrapper ids; a
non-null host return becomes the call's result, a null one yields the
engine's undefined value. -/
def FunctionTemplateCallback (st : State) (gc : Nat → Nat)
    (gf : Nat → Nat → List Nat → Option Nat) (curCid cbRef : Nat)
    (thisV : V8Value) (argsV : List V8Value) : Option (State × CbOut) :=
  (lookupA curCid st.ctxs).bind fun mcCur =>
  mcCur.embRef.bind fun ctxRef =>
  let cid := gc ctxRef
  (lookupA cid st.ctxs).bind fun _ =>
  let r1 := createTracked st mcCur.iso cid thisV
  let r2 := createTrackedList r1.1 mcCur.iso cid argsV
  let ids := r1.2 :: r2.2
  match gf ctxRef cbRef ids with
  | some rid =>
    (lookupA rid r2.1.values).map fun mv =>
      (r2.1, ⟨ids, ctxRef, cbRef, argsV.length, mv.ptr⟩)
  | none => some (r2.1, ⟨ids, ctxRef, cbRef, argsV.length, .vUndef⟩)

/-! ### Sandbox-less value constructors (v8go.cc 568-731, 1240-1285) -/

/-- NewValueInteger (v8go.cc lines 572-580), standing for the shared
shape of the other primitive constructors taking only an isolate: the
value is wrapped and tracked in the isolate's internal context. -/
def NewValueInteger (st : State) (iso : Nat) (n : Int) :
    Option (State × Nat) :=
  (lookupA iso st.internalOf).bind fun cid =>
  (lookupA cid st.ctxs).map fun _ =>
    createTracked st iso cid (.vInt n)

/-- NewValueNull (v8go.cc lines 609-616): same pattern with the engine
null value. -/
def NewValueNull (st : State) (iso : Nat) : Option (State × Nat) :=
  (lookupA iso st.internalOf).bind fun cid =>
  (lookupA cid st.ctxs).map fun _ =>
    createTracked st iso cid .vNull

/-- Modelled from the spec: the SymbolIndex enumeration lives in v8go.h,
which is not under src/; the spec fixes the taxonomy as the eleven
well-known symbols, numbered here 1..11 in the order of the switch at
v8go.cc lines 1243-1279, every other index falling to the default. -/
def symbolOf (idx : Nat) : Option V8Value :=
  if idx = 1 then some (.vSym ("asyncIterator"))
  else if idx = 2 then some (.vSym ("hasInstance"))
  else if idx = 3 then some (.vSym ("isConcatSpreadable"))
  else if idx = 4 then some (.vSym ("iterator"))
  else if idx = 5 then some (.vSym ("match"))
  else if idx = 6 then some (.vSym ("replace"))
  else if idx = 7 then some (.vSym ("search"))
  else if idx = 8 then some (.vSym ("split"))
  else if idx = 9 then some (.vSym ("toPrimitive"))
  else if idx = 10 then some (.vSym ("toStringTag"))
  else if idx = 11 then some (.vSym ("unscopables"))
  else none

/-- BuiltinSymbol (v8go.cc lines 1240-1285): an index outside the
well-known set returns null before any allocation; a known symbol is
wrapped and tracked in the isolate's internal context. -/
def BuiltinSymbol (st : State) (iso idx : Nat) :
    Option (State × Option Nat) :=
  (lookupA iso st.internalOf).bind fun cid =>
  (lookupA cid st.ctxs).map fun _ =>
    match symbolOf idx with
    | none => (st, none)
    | some s =>
      let r := createTracked st iso cid s
      (r.1, some r.2)

/-- Modelled from the spec: the ErrorTypeIndex enumeration lives in
v8go.h, which is not under src/; the spec fixes the taxonomy as
range / reference / syntax / type / wasm-compile / wasm-link /
wasm-runtime / generic errors, numbered here 1..8 in the order of the
switch at v8go.cc lines 698-725, every other index falling to the
default.  The error kind is encoded in the vErr tag. -/
def errExceptionOf (idx : Nat) (msg : String) : Option V8Value :=
  if idx = 1 then some (.vErr 1 msg)
  else if idx = 2 then some (.vErr 2 msg)
  else if idx = 3 then some (.vErr 3 msg)
  else if idx = 4 then some (.vErr 4 msg)
  else if idx = 5 then some (.vErr 5 msg)
  else if idx = 6 then some (.vErr 6 msg)
  else if idx = 7 then some (.vErr 7 msg)
  else if idx = 8 then some (.vErr 8 msg)
  else none

/-- NewValueError (v8go.cc lines 691-731): the switch default returns a
null handle before any m_value allocation, so the state is untouched; a
taxonomy index builds the exception value, wraps it and tracks it in the
isolate's internal context. -/
def NewValueError (st : State) (iso idx : Nat) (msg : String) :
    Option (State × Option Nat) :=
  (lookupA iso st.internalOf).bind fun cid =>
  (lookupA cid st.ctxs).map fun _ =>
    match errExceptionOf idx msg with
    | none => (st, none)
    | some v =>
      let r := createTracked st iso cid v
      (r.1, some r.2)

/-! ### JSON stringify (JSONStringify, v8go.cc 502-535) -/

/-- Scope resolution of JSONStringify lines 506-525: a supplied context
wins; otherwise the value's own context; otherwise the internal context
of the value's isolate. -/
def jsonScope (st : State) (p : Option Nat) (mv : MValue) : Option Nat :=
  match p with
  | some cid => some cid
  | none =>
    match mv.ctx with
    | some cid => some cid
    | none => lookupA mv.iso st.internalOf

/-- JSONStringify (v8go.cc lines 502-535): serialisation runs in the
resolved scope; an engine serialisation failure returns the nullptr
sentinel (no error record), and a successful serialisation is returned
through CopyString on a Utf8Value.  The inner Option is the returned
C string (none standing for nullptr). -/
def JSONStringify (st : State) (p : Option Nat) (vid : Nat)
    (engine : Nat → V8Value → Option String) : Option (Option String) :=
  (lookupA vid st.values).bind fun mv =>
  (jsonScope st p mv).bind fun cid =>
  (lookupA cid st.ctxs).map fun _ =>
    match engine cid mv.ptr with
    | none => none
    | some s => copyStringUtf8 s

/-! ### The operation alphabet and its step function -/

/-- One boundary operation touching the context / value heap.  Engine
outcomes ride along as parameters.  Each constructor names the v8go.cc
function it embeds. -/
inductive Op where
  | newIsolate
  | newContext (iso : Nat) (gt : Option MTemplate) (r : Nat)
  | runScript (cid : Nat) (source origin : String)
      (run : Except TryCatchSt V8Value)
  | contextGlobal (cid : Nat) (g : V8Value)
  | objectGetAnyKey (vid keyVid : Nat) (res : Except TryCatchSt V8Value)
  | objectTemplateNewInstance (tm : MTemplate) (cid : Nat)
      (res : Except TryCatchSt V8Value)
  | functionTemplateGetFunction (tm : MTemplate) (cid : Nat)
      (res : Except TryCatchSt V8Value)
  | newPromiseResolver (cid : Nat) (res : Except TryCatchSt V8Value)
  | promiseResolverGetPromise (vid : Nat) (promiseV : V8Value)
  | promiseThen (vid cbRef : Nat) (res : Except TryCatchSt V8Value)
  | functionCall (vid recvVid : Nat) (argVids : List Nat)
      (res : Except TryCatchSt V8Value)
  | fnTemplateCallback (gc : Nat → Nat)
      (gf : Nat → Nat → List Nat → Option Nat) (curCid cbRef : Nat)
      (thisV : V8Value) (argsV : List V8Value)
  | newValueInteger (iso : Nat) (n : Int)
  | newValueNull (iso : Nat)
  | builtinSymbol (iso idx : Nat)
  | newValueError (iso idx : Nat) (msg : String)
  | contextFree (p : Option Nat)

/-- State transition of one operation (the heap part of each embedded
function). -/
def step (st : State) : Op → Option State
  | .newIsolate => some (NewIsolate st).1
  | .newContext iso gt r => some (NewContext st iso gt r).1
  | .runScript cid source origin run =>
    (RunScript st cid source origin run).map Prod.fst
  | .contextGlobal cid g => (ContextGlobal st cid g).map Prod.fst
  | .objectGetAnyKey vid keyVid res =>
    (ObjectGetAnyKey st vid keyVid res).map Prod.fst
  | .objectTemplateNewInstance tm cid res =>
    (ObjectTemplateNewInstance st tm cid res).map Prod.fst
  | .functionTemplateGetFunction tm cid res =>
    (FunctionTemplateGetFunction st tm cid res).map Prod.fst
  | .newPromiseResolver cid res =>
    (NewPromiseResolver st cid res).map Prod.fst
  | .promiseResolverGetPromise vid promiseV =>
    (PromiseResolverGetPromise st vid promiseV).map Prod.fst
  | .promiseThen vid cbRef res => (PromiseThen st vid cbRef res).map Prod.fst
  | .functionCall vid recvVid argVids res =>
    (FunctionCall st vid recvVid argVids res).map Prod.fst
  | .fnTemplateCallback gc gf curCid cbRef thisV argsV =>
    (FunctionTemplateCallback st gc gf curCid cbRef thisV argsV).map Prod.fst
  | .newValueInteger iso n => (NewValueInteger st iso n).map Prod.fst
  | .newValueNull iso => (NewValueNull st iso).map Prod.fst
  | .builtinSymbol iso idx => (BuiltinSymbol st iso idx).map Prod.fst
  | .newValueError iso idx msg =>
    (NewValueError st iso idx msg).map Prod.fst
  | .contextFree p => (ContextFree st p).map Prod.fst

/-! ### The registry well-formedness invariant -/

/-- Total number of occurrences of a value id across every registry of
the context heap. -/
def regOcc (cs : List (Nat × MCtx)) (vid : Nat) : Nat :=
  (cs.map (fun p => p.2.vals.count vid)).sum

/-- Well-formedness of the glue-layer heap: distinct context and value
ids, ids below the allocator counter, every live value owned by exactly
the one live registry recorded in its ctx field (exactly one occurrence
there and one occurrence globally), and registries referring only to
live values. -/
structure WF (st : State) : Prop where
  nodupC : (st.ctxs.map Prod.fst).Nodup
  nodupV : (st.values.map Prod.fst).Nodup
  boundC : ∀ p ∈ st.ctxs, p.1 < st.next
  boundV : ∀ p ∈ st.values, p.1 < st.next
  owner : ∀ p ∈ st.values, ∃ cid, p.2.ctx = some cid ∧
    ∃ mc, lookupA cid st.ctxs = some mc ∧ mc.vals.count p.1 = 1
  occOne : ∀ p ∈ st.values, regOcc st.ctxs p.1 = 1
  regLive : ∀ p ∈ st.ctxs, ∀ vid ∈ p.2.vals, (lookupA vid st.values).isSome

/-- The registry an operation registers its freshly created Value
Wrappers in, as resolved by the source: the explicit context argument
where there is one; the receiver value's resolved context for the
LOCAL_VALUE operations; the context recovered from the stamped identity
for the callback bridge; the isolate's internal context for the
sandbox-less constructors; nothing for the lifecycle operations. -/
def opTarget (st : State) : Op → Option Nat
  | .newIsolate => none
  | .newContext _ _ _ => none
  | .runScript cid _ _ _ => some cid
  | .contextGlobal cid _ => some cid
  | .objectGetAnyKey vid _ _ => (lookupA vid st.values).bind (resolveCtx st)
  | .objectTemplateNewInstance _ cid _ => some cid
  | .functionTemplateGetFunction _ cid _ => some cid
  | .newPromiseResolver cid _ => some cid
  | .promiseResolverGetPromise vid _ =>
    (lookupA vid st.values).bind (resolveCtx st)
  | .promiseThen vid _ _ => (lookupA vid st.values).bind (resolveCtx st)
  | .functionCall vid _ _ _ => (lookupA vid st.values).bind (resolveCtx st)
  | .fnTemplateCallback gc _ curCid _ _ _ =>
    ((lookupA curCid st.ctxs).bind MCtx.embRef).map gc
  | .newValueInteger iso _ => lookupA iso st.internalOf
  | .newValueNull iso => lookupA iso st.internalOf
  | .builtinSymbol iso _ => lookupA iso st.internalOf
  | .newValueError iso _ _ => lookupA iso st.internalOf
  | .contextFree _ => none

/-- A small well-formed heap: one isolate (id 0) with its internal
context (id 1), no values yet — the state NewIsolate builds from an
empty heap. -/
def stIsoW : State := ⟨[(1, ⟨0, none, []⟩)], [], [(0, 1)], 2⟩

/-- A heap with one context (id 1) owning two registered values
(ids 2 and 3), for exercising sandbox teardown. -/
def stFreeW : State :=
  ⟨[(1, ⟨0, none, [2, 3]⟩)],
   [(2, ⟨0, some 1, .vInt 4⟩), (3, ⟨0, some 1, .vNull⟩)], [(0, 1)], 4⟩

/-- A heap with the internal context (id 1) and one script context
(id 2) stamped with identity 77, for exercising the callback bridge. -/
def stCbW : State :=
  ⟨[(2, ⟨0, some 77, []⟩), (1, ⟨0, none, []⟩)], [], [(0, 1)], 3⟩

theorem lookupA_cons_self {β : Type} (k : Nat) (v : β) (l : List (Nat × β)) :
    lookupA k ((k, v) :: l) = some v := by
  simp [lookupA]

theorem lookupA_cons_ne {β : Type} {k k' : Nat} (v : β) (l : List (Nat × β))
    (h : k' ≠ k) : lookupA k ((k', v) :: l) = lookupA k l := by
  simp [lookupA, h]

theorem lookupA_update_self {β : Type} (k : Nat) (f : β → β)
    (l : List (Nat × β)) : lookupA k (updateA k f l) = (lookupA k l).map f := by
  induction l with
  | nil => rfl
  | cons p rest ih =>
    rcases p with ⟨a, b⟩
    by_cases h : a = k
    · subst h
      simp [updateA, lookupA]
    · simp [updateA, lookupA, h, ih]

theorem lookupA_update_ne {β : Type} {k k' : Nat} (f : β → β)
    (l : List (Nat × β)) (h : k' ≠ k) :
    lookupA k' (updateA k f l) = lookupA k' l := by
  induction l with
  | nil => rfl
  | cons p rest ih =>
    rcases p with ⟨a, b⟩
    by_cases hq : a = k'
    · subst hq
      have hak : ¬a = k := h
      simp [updateA, lookupA, hak]
    · by_cases hp : a = k
      · simp [updateA, lookupA, hp, hq, ih, Ne.symm h]
      · simp [updateA, lookupA, hp, hq, ih]

theorem lookupA_remove_self {β : Type} (k : Nat) (l : List (Nat × β)) :
    lookupA k (removeA k l) = none := by
  induction l with
  | nil => rfl
  | cons p rest ih =>
    rcases p with ⟨a, b⟩
    by_cases h : a = k
    · simp [removeA, h, ih]
    · simp [removeA, lookupA, h, ih]

theorem lookupA_remove_ne {β : Type} {k k' : Nat} (l : List (Nat × β))
    (h : k' ≠ k) : lookupA k' (removeA k l) = lookupA k' l := by
  induction l with
  | nil => rfl
  | cons p rest ih =>
    rcases p with ⟨a, b⟩
    by_cases hp : a = k
    · subst hp
      have hak : ¬a = k' := fun hh => h hh.symm
      simp [removeA, lookupA, hak, ih]
    · by_cases hq : a = k'
      · subst hq
        simp [removeA, lookupA, hp]
      · simp [removeA, lookupA, hp, hq, ih]

theorem lookupA_mem {β : Type} {k : Nat} {v : β} {l : List (Nat × β)}
    (h : lookupA k l = some v) : (k, v) ∈ l := by
  induction l with
  | nil => simp [lookupA] at h
  | cons p rest ih =>
    rcases p with ⟨a, b⟩
    by_cases hp : a = k
    · subst hp
      simp [lookupA] at h
      subst h
      simp
    · simp [lookupA, hp] at h
      simp [ih h]

theorem mem_lookupA_isSome {β : Type} {k : Nat} {v : β} {l : List (Nat × β)}
    (h : (k, v) ∈ l) : (lookupA k l).isSome := by
  induction l with
  | nil => simp at h
  | cons p rest ih =>
    rcases p with ⟨a, b⟩
    rcases List.mem_cons.mp h with h1 | h1
    · have ha : a = k := by
        have := congrArg Prod.fst h1.symm
        simpa using this
      simp [lookupA, ha]
    · by_cases hp : a = k
      · simp [lookupA, hp]
      · simp [lookupA, hp]
        exact ih h1

theorem updateA_keys {β : Type} (k : Nat) (f : β → β) (l : List (Nat × β)) :
    (updateA k f l).map Prod.fst = l.map Prod.fst := by
  induction l with
  | nil => rfl
  | cons p rest ih =>
    rcases p with ⟨a, b⟩
    simp [updateA, ih]

theorem updateA_of_not_mem {β : Type} {k : Nat} (f : β → β)
    {l : List (Nat × β)} (h : ∀ p ∈ l, p.1 ≠ k) : updateA k f l = l := by
  induction l with
  | nil => rfl
  | cons p rest ih =>
    rcases p with ⟨a, b⟩
    have hp : a ≠ k := h (a, b) (by simp)
    have hrest := ih (fun q hq => h q (by simp [hq]))
    simp [updateA, hp, hrest]

theorem removeA_keys_sublist {β : Type} (k : Nat) (l : List (Nat × β)) :
    ((removeA k l).map Prod.fst).Sublist (l.map Prod.fst) := by
  induction l with
  | nil => simp [removeA]
  | cons p rest ih =>
    rcases p with ⟨a, b⟩
    by_cases h : a = k
    · simp only [removeA, if_pos h, List.map_cons]
      exact ih.cons a
    · simp only [removeA, if_neg h, List.map_cons]
      exact ih.cons₂ a

theorem mem_removeA {β : Type} {k : Nat} {p : Nat × β} {l : List (Nat × β)}
    (h : p ∈ removeA k l) : p ∈ l ∧ p.1 ≠ k := by
  induction l with
  | nil => simp [removeA] at h
  | cons q rest ih =>
    rcases q with ⟨a, b⟩
    by_cases ha : a = k
    · simp only [removeA, if_pos ha] at h
      have := ih h
      exact ⟨by simp [this.1], this.2⟩
    · simp only [removeA, if_neg ha] at h
      rcases List.mem_cons.mp h with h1 | h1
      · subst h1
        exact ⟨by simp, ha⟩
      · have := ih h1
        exact ⟨by simp [this.1], this.2⟩

/-- Claim C5: for every pending exception state, a forcibly terminated
execution yields the fixed sentinel message with absent location and
stack, independently of the exception value, message and stack fields
(they are never read); otherwise the message is the copied text of the
thrown exception. -/
theorem c5_terminated_sentinel (tc : TryCatchSt) :
    (tc.hasTerminated = true →
      ExceptionError tc =
        { msg := some terminationMessage, location := none, stack := none } ∧
      ∀ e m s, ExceptionError
          { hasTerminated := true, exceptionText := e, message := m,
            stackText := s } = ExceptionError tc) ∧
    (tc.hasTerminated = false →
      (ExceptionError tc).msg = copyStringUtf8 tc.exceptionText) := by
  constructor
  · intro h
    constructor
    · simp [ExceptionError, h, copyStringStd]
    · intro e m s
      simp [ExceptionError, h]
  · intro h
    simp [ExceptionError, h]

/-- Witness for C5 at a concrete terminated state and a concrete thrown
state. -/
theorem c5_terminated_sentinel_w :
    (ExceptionError
        { hasTerminated := true, exceptionText := ("boom"), message := none,
          stackText := none } =
      { msg := some terminationMessage, location := none, stack := none }) ∧
    (ExceptionError
        { hasTerminated := false, exceptionText := ("boom"), message := none,
          stackText := none }).msg = copyStringUtf8 ("boom") :=
  ⟨((c5_terminated_sentinel
      { hasTerminated := true, exceptionText := ("boom"), message := none,
        stackText := none }).1 rfl).1,
   (c5_terminated_sentinel
      { hasTerminated := false, exceptionText := ("boom"), message := none,
        stackText := none }).2 rfl⟩

/-- Claim C6: for a non-terminated exception, the location is formatted
as origin:line:column, the line segment appended exactly when the engine
supplies a line number, the column segment exactly when it supplies a
start column (rendered one-based by adding 1 to the zero-based engine
column); with no source message the location is absent. -/
theorem c6_location_format (tc : TryCatchSt) (h : tc.hasTerminated = false) :
    (tc.message = none → (ExceptionError tc).location = none) ∧
    (∀ o l c, tc.message = some ⟨o, some l, some c⟩ →
      (ExceptionError tc).location =
        some (o ++ ":" ++ toString l ++ ":" ++ toString (c + 1))) ∧
    (∀ o l, tc.message = some ⟨o, some l, none⟩ →
      (ExceptionError tc).location = some (o ++ ":" ++ toString l)) ∧
    (∀ o c, tc.message = some ⟨o, none, some c⟩ →
      (ExceptionError tc).location = some (o ++ ":" ++ toString (c + 1))) ∧
    (∀ o, tc.message = some ⟨o, none, none⟩ →
      (ExceptionError tc).location = some o) := by
  refine ⟨?_, ?_, ?_, ?_, ?_⟩
  · intro hm
    simp [ExceptionError, h, hm]
  · intro o l c hm
    simp [ExceptionError, h, hm, formatLocation, copyStringStd]
  · intro o l hm
    simp [ExceptionError, h, hm, formatLocation, copyStringStd]
  · intro o c hm
    simp [ExceptionError, h, hm, formatLocation, copyStringStd]
  · intro o hm
    simp [ExceptionError, h, hm, formatLocation, copyStringStd]

/-- Witness for C6 at a concrete state carrying origin, line 3 and
engine start column 7 (rendered as column 8). -/
theorem c6_location_format_w :
    (ExceptionError
        { hasTerminated := false, exceptionText := ("x"),
          message := some ⟨("a.js"), some 3, some 7⟩,
          stackText := none }).location =
      some (("a.js") ++ ":" ++ toString (3 : Int) ++ ":" ++
        toString ((7 : Int) + 1)) :=
  (c6_location_format
      { hasTerminated := false, exceptionText := ("x"),
        message := some ⟨("a.js"), some 3, some 7⟩, stackText := none }
      rfl).2.1 ("a.js") 3 7 rfl

/-- Claim C8: setting a value or a sub-template under a key that is not
name-like (neither string nor symbol) leaves the template unchanged and
returns false — a total function, never an exception — while a name-like
key installs the property and returns true. -/
theorem c8_template_set_name_guard (tm : MTemplate) (key val : V8Value)
    (obj : Nat) (attributes : Int) :
    (key.isName = false →
      TemplateSetAnyValue tm key val attributes = (tm, false) ∧
      TemplateSetAnyTemplate tm key obj attributes = (tm, false)) ∧
    (key.isName = true →
      TemplateSetAnyValue tm key val attributes =
        ({ tm with entries := tm.entries ++ [(key, .pval val, attributes)] },
         true) ∧
      TemplateSetAnyTemplate tm key obj attributes =
        ({ tm with entries := tm.entries ++ [(key, .ptmpl obj, attributes)] },
         true)) := by
  constructor
  · intro h
    constructor <;> simp [TemplateSetAnyValue, TemplateSetAnyTemplate, h]
  · intro h
    constructor <;> simp [TemplateSetAnyValue, TemplateSetAnyTemplate, h]

/-- Witness for C8: an integer key is rejected with false, a string key
is installed with true, on a concrete empty template. -/
theorem c8_template_set_name_guard_w :
    TemplateSetAnyValue ⟨0, []⟩ (.vInt 7) .vNull 0 = (⟨0, []⟩, false) ∧
    (TemplateSetAnyValue ⟨0, []⟩ (.vStr ("k")) .vNull 0).2 = true :=
  ⟨((c8_template_set_name_guard ⟨0, []⟩ (.vInt 7) .vNull 9 0).1 rfl).1,
   by
    have := ((c8_template_set_name_guard ⟨0, []⟩ (.vStr ("k")) .vNull 9 0).2
      rfl).1
    simp [this]⟩

/-- Counterexample to claim C9 as stated: the record returned for a live
isolate has eleven numeric fields, not ten — the claimed list itself
names eleven statistics. -/
theorem c9_cex_eleven_fields :
    ¬ ((IsolationGetHeapStatistics (some 0)
        ⟨1, 2, 3, 4, 5, 6, 7, 8, 9, 10, 11⟩).fieldList.length = 10) := by
  decide

/-- Claim C9 amended: heapStatistics returns a record of exactly 11
numeric fields — total/used/available/physical heap size, executable
heap size, heap size limit, malloced memory, external memory, peak
malloced memory, native-context count and detached-context count — each
copied from the corresponding engine statistic. -/
theorem c9_heap_statistics_fields (i : Nat) (hs : HeapStats) :
    (IsolationGetHeapStatistics (some i) hs).fieldList =
      [hs.total_heap_size, hs.total_heap_size_executable,
       hs.total_physical_size, hs.total_available_size, hs.used_heap_size,
       hs.heap_size_limit, hs.malloced_memory, hs.external_memory,
       hs.peak_malloced_memory, hs.number_of_native_contexts,
       hs.number_of_detached_contexts] ∧
    (IsolationGetHeapStatistics (some i) hs).fieldList.length = 11 := by
  constructor
  · rfl
  · rfl

theorem mem_updateA {β : Type} {k : Nat} {f : β → β} {q : Nat × β}
    {l : List (Nat × β)} (h : q ∈ updateA k f l) :
    ∃ p ∈ l, q.1 = p.1 ∧ (q.2 = p.2 ∨ (p.1 = k ∧ q.2 = f p.2)) := by
  induction l with
  | nil => simp [updateA] at h
  | cons p rest ih =>
    rcases p with ⟨a, b⟩
    simp only [updateA] at h
    rcases List.mem_cons.mp h with h1 | h1
    · by_cases ha : a = k
      · exact ⟨(a, b), by simp, by simp [h1, ha]⟩
      · exact ⟨(a, b), by simp, by simp [h1, ha]⟩
    · rcases ih h1 with ⟨p', hp', h2⟩
      exact ⟨p', by simp [hp'], h2⟩

theorem removeA_of_not_mem {β : Type} {k : Nat} {l : List (Nat × β)}
    (h : ∀ p ∈ l, p.1 ≠ k) : removeA k l = l := by
  induction l with
  | nil => rfl
  | cons p rest ih =>
    rcases p with ⟨a, b⟩
    have hp : a ≠ k := h (a, b) (by simp)
    have hrest := ih (fun q hq => h q (by simp [hq]))
    simp [removeA, hp, hrest]

theorem regOcc_ge_of_mem {cs : List (Nat × MCtx)} {c : Nat} {m : MCtx}
    (vid : Nat) (h : (c, m) ∈ cs) : m.vals.count vid ≤ regOcc cs vid := by
  induction cs with
  | nil => simp at h
  | cons q rest ih =>
    simp only [regOcc, List.map_cons, List.sum_cons]
    rcases List.mem_cons.mp h with h1 | h1
    · have hq : q.2 = m := by
        have := congrArg Prod.snd h1.symm
        simpa using this
      rw [hq]
      exact Nat.le_add_right _ _
    · have hr := ih h1
      simp only [regOcc] at hr
      omega

theorem regOcc_ge_two {cs : List (Nat × MCtx)} {c1 c2 : Nat} {m1 m2 : MCtx}
    {vid : Nat} (h1 : (c1, m1) ∈ cs) (h2 : (c2, m2) ∈ cs) (hne : c1 ≠ c2)
    (hv1 : vid ∈ m1.vals) (hv2 : vid ∈ m2.vals) : 2 ≤ regOcc cs vid := by
  induction cs with
  | nil => simp at h1
  | cons q rest ih =>
    have hc1 : 0 < m1.vals.count vid := List.count_pos_iff.mpr hv1
    have hc2 : 0 < m2.vals.count vid := List.count_pos_iff.mpr hv2
    simp only [regOcc, List.map_cons, List.sum_cons]
    rcases List.mem_cons.mp h1 with e1 | e1
    · rcases List.mem_cons.mp h2 with e2 | e2
      · exfalso
        apply hne
        have := congrArg Prod.fst (e1.trans e2.symm)
        simpa using this
      · have hrest := regOcc_ge_of_mem vid e2
        have hq : q.2 = m1 := by
          have := congrArg Prod.snd e1.symm
          simpa using this
        simp only [regOcc] at hrest
        rw [hq]
        omega
    · rcases List.mem_cons.mp h2 with e2 | e2
      · have hrest := regOcc_ge_of_mem vid e1
        have hq : q.2 = m2 := by
          have := congrArg Prod.snd e2.symm
          simpa using this
        simp only [regOcc] at hrest
        rw [hq]
        omega
      · have hr := ih e1 e2
        simp only [regOcc] at hr
        omega

theorem regOcc_update_append {cs : List (Nat × MCtx)} {cid : Nat} {mc : MCtx}
    (w vid : Nat) (hnd : (cs.map Prod.fst).Nodup)
    (hc : lookupA cid cs = some mc) :
    regOcc (updateA cid (fun m => { m with vals := m.vals ++ [w] }) cs) vid =
      regOcc cs vid + (if w = vid then 1 else 0) := by
  induction cs with
  | nil => simp [lookupA] at hc
  | cons q rest ih =>
    rcases q with ⟨a, b⟩
    simp only [List.map_cons, List.nodup_cons] at hnd
    by_cases ha : a = cid
    · subst ha
      rw [lookupA_cons_self] at hc
      injection hc with hc
      subst hc
      have hrest : updateA a (fun m => { m with vals := m.vals ++ [w] }) rest
          = rest :=
        updateA_of_not_mem _ (fun p hp he =>
          hnd.1 (he ▸ List.mem_map_of_mem Prod.fst hp))
      have hcount : (b.vals ++ [w]).count vid =
          b.vals.count vid + (if w = vid then 1 else 0) := by
        by_cases hw : w = vid
        · subst hw
          simp [List.count_append]
        · have hz : List.count vid [w] = 0 := by
            rw [List.count_eq_zero]
            intro hm
            rw [List.mem_singleton] at hm
            exact hw hm.symm
          simp [List.count_append, hz, hw]
      simp only [regOcc, updateA, eq_self_iff_true, if_true, List.map_cons,
        List.sum_cons, hrest, hcount]
      omega
    · rw [lookupA_cons_ne _ _ ha] at hc
      have hr := ih hnd.2 hc
      simp only [regOcc] at hr
      simp only [regOcc, updateA, if_neg ha, List.map_cons, List.sum_cons]
      omega

theorem regOcc_remove {cs : List (Nat × MCtx)} {cid : Nat} {mc : MCtx}
    (vid : Nat) (hnd : (cs.map Prod.fst).Nodup)
    (hc : lookupA cid cs = some mc) :
    regOcc (removeA cid cs) vid + mc.vals.count vid = regOcc cs vid := by
  induction cs with
  | nil => simp [lookupA] at hc
  | cons q rest ih =>
    rcases q with ⟨a, b⟩
    simp only [List.map_cons, List.nodup_cons] at hnd
    by_cases ha : a = cid
    · subst ha
      rw [lookupA_cons_self] at hc
      injection hc with hc
      subst hc
      have hrest : removeA a rest = rest :=
        removeA_of_not_mem (fun p hp he =>
          hnd.1 (he ▸ List.mem_map_of_mem Prod.fst hp))
      simp only [regOcc, removeA, eq_self_iff_true, if_true, List.map_cons,
        List.sum_cons, hrest]
      omega
    · rw [lookupA_cons_ne _ _ ha] at hc
      have hr := ih hnd.2 hc
      simp only [regOcc] at hr
      simp only [regOcc, removeA, if_neg ha, List.map_cons, List.sum_cons]
      omega

theorem lookupA_filter {β : Type} {k : Nat} {v : β} {pred : Nat × β → Bool}
    {l : List (Nat × β)} (h : lookupA k l = some v)
    (hp : pred (k, v) = true) : lookupA k (l.filter pred) = some v := by
  induction l with
  | nil => simp [lookupA] at h
  | cons q rest ih =>
    rcases q with ⟨a, b⟩
    by_cases ha : a = k
    · subst ha
      rw [lookupA_cons_self] at h
      injection h with h
      subst h
      simp [List.filter_cons, hp, lookupA]
    · rw [lookupA_cons_ne _ _ ha] at h
      by_cases hpq : pred (a, b) = true
      · simp [List.filter_cons, hpq, lookupA, ha, ih h]
      · simp only [List.filter_cons]
        rw [if_neg (by simp [hpq])]
        exact ih h

theorem regOcc_fresh_zero {st : State} (hwf : WF st) {w : Nat}
    (hw : st.next ≤ w) : regOcc st.ctxs w = 0 := by
  apply List.sum_eq_zero
  intro x hx
  rcases List.mem_map.mp hx with ⟨p, hp, he⟩
  subst he
  rw [List.count_eq_zero]
  intro hmem
  have hs := hwf.regLive p hp w hmem
  rcases Option.isSome_iff_exists.mp hs with ⟨mv, hmv⟩
  have := hwf.boundV (w, mv) (lookupA_mem hmv)
  simp at this
  omega

theorem lookupA_cons_isSome {β : Type} {k k' : Nat} {v : β}
    {l : List (Nat × β)} (h : (lookupA k l).isSome) :
    (lookupA k ((k', v) :: l)).isSome := by
  by_cases ha : k' = k
  · simp [lookupA, ha]
  · simpa [lookupA, ha] using h

theorem lookupA_eq_of_mem_nodup {β : Type} {k : Nat} {v : β}
    {l : List (Nat × β)} (hnd : (l.map Prod.fst).Nodup) (h : (k, v) ∈ l) :
    lookupA k l = some v := by
  induction l with
  | nil => simp at h
  | cons p rest ih =>
    rcases p with ⟨a, b⟩
    simp only [List.map_cons, List.nodup_cons] at hnd
    rcases List.mem_cons.mp h with h1 | h1
    · injection h1 with e1 e2
      subst e1
      subst e2
      exact lookupA_cons_self _ _ _
    · have ha : a ≠ k := by
        intro he
        subst he
        exact hnd.1 (List.mem_map_of_mem Prod.fst h1)
      rw [lookupA_cons_ne _ _ ha]
      exact ih hnd.2 h1

theorem lookupA_value_fresh {st : State} (hwf : WF st) {w : Nat}
    (hw : st.next ≤ w) : lookupA w st.values = none := by
  cases h : lookupA w st.values with
  | none => rfl
  | some mv =>
    have := hwf.boundV (w, mv) (lookupA_mem h)
    simp at this
    omega

theorem lookupA_ctx_fresh {st : State} (hwf : WF st) {w : Nat}
    (hw : st.next ≤ w) : lookupA w st.ctxs = none := by
  cases h : lookupA w st.ctxs with
  | none => rfl
  | some mc =>
    have := hwf.boundC (w, mc) (lookupA_mem h)
    simp at this
    omega

theorem createTracked_state (st : State) (iso cid : Nat) (v : V8Value) :
    createTracked st iso cid v =
      ({ ctxs := updateA cid
            (fun mc => { mc with vals := mc.vals ++ [st.next] }) st.ctxs,
         values := (st.next, ⟨iso, some cid, v⟩) :: st.values,
         internalOf := st.internalOf,
         next := st.next + 1 }, st.next) := rfl

theorem WF_createTracked {st : State} {cid : Nat} {mc : MCtx} (iso : Nat)
    (v : V8Value) (hwf : WF st) (hc : lookupA cid st.ctxs = some mc) :
    WF (createTracked st iso cid v).1 := by
  rw [(congrArg Prod.fst (createTracked_state st iso cid v) : _)]
  have hmcmem : (cid, mc) ∈ st.ctxs := lookupA_mem hc
  have hfreshReg : regOcc st.ctxs st.next = 0 := regOcc_fresh_zero hwf le_rfl
  have hnotmem : st.next ∉ mc.vals := by
    intro hmem
    have h1 : 0 < mc.vals.count st.next := List.count_pos_iff.mpr hmem
    have h2 := regOcc_ge_of_mem st.next hmcmem
    omega
  constructor
  · simpa [updateA_keys] using hwf.nodupC
  · simp only [List.map_cons, List.nodup_cons]
    refine ⟨?_, hwf.nodupV⟩
    intro h
    rcases List.mem_map.mp h with ⟨p, hp, he⟩
    have := hwf.boundV p hp
    omega
  · intro p hp
    rcases mem_updateA hp with ⟨q, hq, he, _⟩
    have := hwf.boundC q hq
    simp only []
    omega
  · intro p hp
    rcases List.mem_cons.mp hp with h1 | h1
    · subst h1
      simp
    · have := hwf.boundV p h1
      simp only []
      omega
  · intro p hp
    rcases List.mem_cons.mp hp with h1 | h1
    · subst h1
      refine ⟨cid, rfl, { mc with vals := mc.vals ++ [st.next] }, ?_, ?_⟩
      · simp only []
        rw [lookupA_update_self, hc]
        rfl
      · simp only [List.count_append, List.count_eq_zero.mpr hnotmem]
        simp
    · rcases hwf.owner p h1 with ⟨cidp, hcp, mcp, hlk, hcnt⟩
      by_cases hcc : cidp = cid
      · subst hcc
        rw [hlk] at hc
        injection hc with hc
        subst hc
        refine ⟨cidp, hcp, { mcp with vals := mcp.vals ++ [st.next] }, ?_, ?_⟩
        · simp only []
          rw [lookupA_update_self, hlk]
          rfl
        · have hne : p.1 ∉ [st.next] := by
            have := hwf.boundV p h1
            simp only [List.mem_singleton]
            omega
          simp only [List.count_append, List.count_eq_zero.mpr hne]
          omega
      · refine ⟨cidp, hcp, mcp, ?_, hcnt⟩
        simp only []
        rw [lookupA_update_ne _ _ hcc]
        exact hlk
  · intro p hp
    have key := regOcc_update_append st.next p.1 hwf.nodupC hc
    rcases List.mem_cons.mp hp with h1 | h1
    · subst h1
      simp only [regOcc] at key hfreshReg ⊢
      simp [key, hfreshReg]
    · have hold := hwf.occOne p h1
      have hne : ¬ st.next = p.1 := by
        have := hwf.boundV p h1
        omega
      simp only [regOcc] at key hold ⊢
      simp [key, hold, hne]
  · intro q hq vid hvid
    rcases mem_updateA hq with ⟨p, hp, he, hcase⟩
    rcases hcase with h2 | ⟨hpk, h2⟩
    · rw [h2] at hvid
      exact lookupA_cons_isSome (hwf.regLive p hp vid hvid)
    · rw [h2] at hvid
      simp only [List.mem_append, List.mem_singleton] at hvid
      rcases hvid with hv | hv
      · exact lookupA_cons_isSome (hwf.regLive p hp vid hv)
      · subst hv
        simp [lookupA]

theorem createTracked_spec {st : State} {cid : Nat} {mc : MCtx} (iso : Nat)
    (v : V8Value) (hwf : WF st) (hc : lookupA cid st.ctxs = some mc) :
    WF (createTracked st iso cid v).1 ∧
    (createTracked st iso cid v).2 = st.next ∧
    lookupA cid (createTracked st iso cid v).1.ctxs =
      some { mc with vals := mc.vals ++ [st.next] } ∧
    (∀ c', c' ≠ cid →
      lookupA c' (createTracked st iso cid v).1.ctxs = lookupA c' st.ctxs) ∧
    (∀ w mv, lookupA w st.values = some mv →
      lookupA w (createTracked st iso cid v).1.values = some mv) ∧
    lookupA st.next st.values = none ∧
    lookupA st.next (createTracked st iso cid v).1.values =
      some ⟨iso, some cid, v⟩ ∧
    (∀ vid mv',
      lookupA vid (createTracked st iso cid v).1.values = some mv' →
      lookupA vid st.values = some mv' ∨
        (vid = st.next ∧ mv' = ⟨iso, some cid, v⟩)) ∧
    (createTracked st iso cid v).1.internalOf = st.internalOf ∧
    (createTracked st iso cid v).1.next = st.next + 1 := by
  refine ⟨WF_createTracked iso v hwf hc, rfl, ?_, ?_, ?_, ?_, ?_, ?_, rfl,
    rfl⟩
  · rw [(congrArg Prod.fst (createTracked_state st iso cid v) : _)]
    simp only []
    rw [lookupA_update_self, hc]
    rfl
  · intro c' hcc
    rw [(congrArg Prod.fst (createTracked_state st iso cid v) : _)]
    simp only []
    exact lookupA_update_ne _ _ hcc
  · intro w mv hmv
    rw [(congrArg Prod.fst (createTracked_state st iso cid v) : _)]
    have hb := hwf.boundV (w, mv) (lookupA_mem hmv)
    simp only [] at hb
    have hne : st.next ≠ w := by omega
    simp only []
    rw [lookupA_cons_ne _ _ hne]
    exact hmv
  · exact lookupA_value_fresh hwf le_rfl
  · rw [(congrArg Prod.fst (createTracked_state st iso cid v) : _)]
    simp only []
    exact lookupA_cons_self _ _ _
  · intro vid mv' hmv'
    rw [(congrArg Prod.fst (createTracked_state st iso cid v) : _)] at hmv'
    simp only [] at hmv'
    by_cases hv : st.next = vid
    · subst hv
      rw [lookupA_cons_self] at hmv'
      injection hmv' with hmv'
      exact Or.inr ⟨rfl, hmv'.symm⟩
    · rw [lookupA_cons_ne _ _ hv] at hmv'
      exact Or.inl hmv'

theorem ContextFree_some_eq {st : State} {cid : Nat} {mc : MCtx}
    (hc : lookupA cid st.ctxs = some mc) :
    ContextFree st (some cid) =
      some ({ st with
              ctxs := removeA cid st.ctxs,
              values :=
                st.values.filter (fun q => decide (q.1 ∉ mc.vals)) },
            .scope :: mc.vals.map .value) := by
  simp [ContextFree, hc]

theorem WF_ContextFree {st : State} {cid : Nat} {mc : MCtx}
    (hwf : WF st) (hc : lookupA cid st.ctxs = some mc) :
    WF { st with
          ctxs := removeA cid st.ctxs,
          values := st.values.filter (fun q => decide (q.1 ∉ mc.vals)) } := by
  have hmcmem : (cid, mc) ∈ st.ctxs := lookupA_mem hc
  constructor
  · exact hwf.nodupC.sublist (removeA_keys_sublist cid st.ctxs)
  · exact hwf.nodupV.sublist ((List.filter_sublist _).map Prod.fst)
  · intro p hp
    exact hwf.boundC p (mem_removeA hp).1
  · intro p hp
    exact hwf.boundV p (List.mem_filter.mp hp).1
  · intro p hp
    rcases List.mem_filter.mp hp with ⟨hm, hpred⟩
    have hnot : p.1 ∉ mc.vals := of_decide_eq_true hpred
    rcases hwf.owner p hm with ⟨cidp, hcp, mcp, hlk, hcnt⟩
    have hne : cidp ≠ cid := by
      intro he
      subst he
      rw [hlk] at hc
      injection hc with hc
      subst hc
      exact hnot (List.count_pos_iff.mp (by omega))
    refine ⟨cidp, hcp, mcp, ?_, hcnt⟩
    simp only []
    rw [lookupA_remove_ne _ hne]
    exact hlk
  · intro p hp
    rcases List.mem_filter.mp hp with ⟨hm, hpred⟩
    have hnot : p.1 ∉ mc.vals := of_decide_eq_true hpred
    have key := regOcc_remove p.1 hwf.nodupC hc
    have hold := hwf.occOne p hm
    have hz : mc.vals.count p.1 = 0 := List.count_eq_zero.mpr hnot
    simp only [regOcc] at key hold ⊢
    omega
  · intro q hq vid hvid
    rcases q with ⟨c', mc'⟩
    have hq2 := mem_removeA hq
    have hs := hwf.regLive (c', mc') hq2.1 vid hvid
    rcases Option.isSome_iff_exists.mp hs with ⟨mv, hmv⟩
    have hvin : vid ∉ mc.vals := by
      intro hin
      have h2 := regOcc_ge_two hq2.1 hmcmem hq2.2 hvid hin
      have h1 := hwf.occOne (vid, mv) (lookupA_mem hmv)
      simp only [regOcc] at h1 h2
      omega
    have := @lookupA_filter MValue vid mv
      (fun q => decide (q.1 ∉ mc.vals)) st.values hmv (by simpa using hvin)
    simp only []
    rw [this]
    rfl

theorem WF_NewIsolate {st : State} (hwf : WF st) : WF (NewIsolate st).1 := by
  constructor
  · simp only [NewIsolate, List.map_cons, List.nodup_cons]
    refine ⟨?_, hwf.nodupC⟩
    intro h
    rcases List.mem_map.mp h with ⟨p, hp, he⟩
    have := hwf.boundC p hp
    omega
  · exact hwf.nodupV
  · intro p hp
    simp only [NewIsolate] at hp ⊢
    rcases List.mem_cons.mp hp with h1 | h1
    · subst h1
      simp
    · have := hwf.boundC p h1
      omega
  · intro p hp
    have := hwf.boundV p hp
    simp only [NewIsolate] at *
    omega
  · intro p hp
    rcases hwf.owner p hp with ⟨cidp, hcp, mcp, hlk, hcnt⟩
    refine ⟨cidp, hcp, mcp, ?_, hcnt⟩
    simp only [NewIsolate]
    rw [lookupA_cons_ne]
    · exact hlk
    · have := hwf.boundC (cidp, mcp) (lookupA_mem hlk)
      simp only [] at this
      omega
  · intro p hp
    have := hwf.occOne p hp
    simp only [NewIsolate, regOcc, List.map_cons, List.sum_cons,
      List.count_nil] at *
    omega
  · intro q hq vid hvid
    simp only [NewIsolate] at hq
    rcases List.mem_cons.mp hq with h1 | h1
    · subst h1
      simp at hvid
    · exact hwf.regLive q h1 vid hvid

theorem WF_NewContext {st : State} (iso : Nat) (gt : Option MTemplate)
    (r : Nat) (hwf : WF st) : WF (NewContext st iso gt r).1 := by
  constructor
  · simp only [NewContext, List.map_cons, List.nodup_cons]
    refine ⟨?_, hwf.nodupC⟩
    intro h
    rcases List.mem_map.mp h with ⟨p, hp, he⟩
    have := hwf.boundC p hp
    omega
  · exact hwf.nodupV
  · intro p hp
    simp only [NewContext] at hp ⊢
    rcases List.mem_cons.mp hp with h1 | h1
    · subst h1
      simp
    · have := hwf.boundC p h1
      omega
  · intro p hp
    have := hwf.boundV p hp
    simp only [NewContext] at *
    omega
  · intro p hp
    rcases hwf.owner p hp with ⟨cidp, hcp, mcp, hlk, hcnt⟩
    refine ⟨cidp, hcp, mcp, ?_, hcnt⟩
    simp only [NewContext]
    rw [lookupA_cons_ne]
    · exact hlk
    · have := hwf.boundC (cidp, mcp) (lookupA_mem hlk)
      simp only [] at this
      omega
  · intro p hp
    have := hwf.occOne p hp
    simp only [NewContext, regOcc, List.map_cons, List.sum_cons,
      List.count_nil] at *
    omega
  · intro q hq vid hvid
    simp only [NewContext] at hq
    rcases List.mem_cons.mp hq with h1 | h1
    · subst h1
      simp at hvid
    · exact hwf.regLive q h1 vid hvid

theorem createTrackedList_spec (iso cid : Nat) (vs : List V8Value) :
    ∀ (st : State) (mc : MCtx), WF st → lookupA cid st.ctxs = some mc →
    WF (createTrackedList st iso cid vs).1 ∧
    (createTrackedList st iso cid vs).2.length = vs.length ∧
    lookupA cid (createTrackedList st iso cid vs).1.ctxs =
      some { mc with
              vals := mc.vals ++ (createTrackedList st iso cid vs).2 } ∧
    (∀ c', c' ≠ cid →
      lookupA c' (createTrackedList st iso cid vs).1.ctxs =
        lookupA c' st.ctxs) ∧
    (∀ w mv, lookupA w st.values = some mv →
      lookupA w (createTrackedList st iso cid vs).1.values = some mv) ∧
    (∀ vid ∈ (createTrackedList st iso cid vs).2,
      lookupA vid st.values = none) ∧
    (∀ vid mv',
      lookupA vid (createTrackedList st iso cid vs).1.values = some mv' →
      lookupA vid st.values = some mv' ∨
        (vid ∈ (createTrackedList st iso cid vs).2 ∧
          mv'.ctx = some cid)) := by
  induction vs with
  | nil =>
    intro st mc hwf hc
    refine ⟨hwf, rfl, ?_, fun c' _ => rfl, fun w mv h => h, by simp
      [createTrackedList], ?_⟩
    · simpa [createTrackedList] using hc
    · intro vid mv' h
      exact Or.inl h
  | cons v rest ih =>
    intro st mc hwf hc
    have e : createTrackedList st iso cid (v :: rest) =
        ((createTrackedList (createTracked st iso cid v).1 iso cid rest).1,
         (createTracked st iso cid v).2 ::
           (createTrackedList (createTracked st iso cid v).1 iso cid
             rest).2) := rfl
    rcases createTracked_spec iso v hwf hc with
      ⟨wf1, hid, hreg1, hother1, hpres1, hfn, hlkNew, hchar1, hint1, hnx1⟩
    rcases ih (createTracked st iso cid v).1
        { mc with vals := mc.vals ++ [st.next] } wf1 hreg1 with
      ⟨wf2, hlen2, hreg2, hother2, hpres2, hfresh2, hchar2⟩
    rw [e]
    refine ⟨wf2, by simp [hlen2], ?_, ?_, ?_, ?_, ?_⟩
    · simp only []
      rw [hreg2]
      simp [hid, List.append_assoc]
    · intro c' hcc
      simp only []
      rw [hother2 c' hcc, hother1 c' hcc]
    · intro w mv hmv
      exact hpres2 w mv (hpres1 w mv hmv)
    · intro vid hvid
      simp only [List.mem_cons] at hvid
      rcases hvid with h1 | h1
      · rw [h1, hid]
        exact hfn
      · have hn := hfresh2 vid h1
        cases h2 : lookupA vid st.values with
        | none => rfl
        | some mv =>
          rw [hpres1 vid mv h2] at hn
          exact absurd hn (by simp)
    · intro vid mv' hmv'
      simp only [] at hmv'
      rcases hchar2 vid mv' hmv' with h1 | ⟨h1, h2⟩
      · rcases hchar1 vid mv' h1 with h2 | ⟨h2, h3⟩
        · exact Or.inl h2
        · refine Or.inr ⟨by simp [h2, hid], ?_⟩
          rw [h3]
      · exact Or.inr ⟨by simp [h1], h2⟩

theorem step_noop_placed {st : State} {P : Nat → MValue → Prop} :
    ∀ vid mv', lookupA vid st.values = some mv' →
      lookupA vid st.values = none → P vid mv' := by
  intro vid mv' h1 h2
  rw [h2] at h1
  exact absurd h1 (by simp)

theorem step_noop_extends {st : State} :
    ∀ cid mc mc', lookupA cid st.ctxs = some mc →
      lookupA cid st.ctxs = some mc' → ∃ t, mc'.vals = mc.vals ++ t := by
  intro cid mc mc' h1 h2
  rw [h1] at h2
  injection h2 with h2
  exact ⟨[], by simp [h2]⟩

theorem step_cons_fresh_extends {st : State} {w : Nat} {e : MCtx}
    (hwf : WF st) (hw : st.next ≤ w) :
    ∀ cid mc mc', lookupA cid st.ctxs = some mc →
      lookupA cid ((w, e) :: st.ctxs) = some mc' →
      ∃ t, mc'.vals = mc.vals ++ t := by
  intro cid mc mc' h1 h2
  have hb := hwf.boundC (cid, mc) (lookupA_mem h1)
  simp only [] at hb
  rw [lookupA_cons_ne _ _ (by omega)] at h2
  rw [h1] at h2
  injection h2 with h2
  exact ⟨[], by simp [h2]⟩

theorem step_create_master {st : State} {cid : Nat} {mc : MCtx} (iso0 : Nat)
    (v : V8Value) (hwf : WF st) (hc : lookupA cid st.ctxs = some mc) :
    WF (createTracked st iso0 cid v).1 ∧
    (∀ vid mv',
      lookupA vid (createTracked st iso0 cid v).1.values = some mv' →
      lookupA vid st.values = none →
      ∃ mc', mv'.ctx = some cid ∧
        lookupA cid (createTracked st iso0 cid v).1.ctxs = some mc' ∧
        vid ∈ mc'.vals) ∧
    (∀ cid0 mc0 mc0', lookupA cid0 st.ctxs = some mc0 →
      lookupA cid0 (createTracked st iso0 cid v).1.ctxs = some mc0' →
      ∃ t, mc0'.vals = mc0.vals ++ t) := by
  rcases createTracked_spec iso0 v hwf hc with
    ⟨wf1, hid, hreg1, hother1, hpres1, hfn, hlkNew, hchar1, hint1, hnx1⟩
  refine ⟨wf1, ?_, ?_⟩
  · intro vid mv' h1 h2
    rcases hchar1 vid mv' h1 with h3 | ⟨h3, h4⟩
    · rw [h2] at h3
      exact absurd h3 (by simp)
    · subst h3
      refine ⟨{ mc with vals := mc.vals ++ [st.next] }, by simp [h4], hreg1,
        by simp⟩
  · intro cid0 mc0 mc0' h1 h2
    by_cases hcc : cid0 = cid
    · subst hcc
      rw [h1] at hc
      injection hc with hc
      subst hc
      rw [hreg1] at h2
      injection h2 with h2
      exact ⟨[st.next], by simp [← h2]⟩
    · rw [hother1 cid0 hcc, h1] at h2
      injection h2 with h2
      exact ⟨[], by simp [h2]⟩

theorem step_callback_master {st : State} {cid : Nat} {mc : MCtx}
    (iso0 : Nat) (thisV : V8Value) (argsV : List V8Value) (hwf : WF st)
    (hc : lookupA cid st.ctxs = some mc) :
    WF (createTrackedList (createTracked st iso0 cid thisV).1 iso0 cid
      argsV).1 ∧
    (∀ vid mv',
      lookupA vid (createTrackedList (createTracked st iso0 cid thisV).1
        iso0 cid argsV).1.values = some mv' →
      lookupA vid st.values = none →
      ∃ mc', mv'.ctx = some cid ∧
        lookupA cid (createTrackedList (createTracked st iso0 cid thisV).1
          iso0 cid argsV).1.ctxs = some mc' ∧
        vid ∈ mc'.vals) ∧
    (∀ cid0 mc0 mc0', lookupA cid0 st.ctxs = some mc0 →
      lookupA cid0 (createTrackedList (createTracked st iso0 cid thisV).1
        iso0 cid argsV).1.ctxs = some mc0' →
      ∃ t, mc0'.vals = mc0.vals ++ t) := by
  rcases createTracked_spec iso0 thisV hwf hc with
    ⟨wf1, hid, hreg1, hother1, hpres1, hfn, hlkNew, hchar1, hint1, hnx1⟩
  rcases createTrackedList_spec iso0 cid argsV
      (createTracked st iso0 cid thisV).1
      { mc with vals := mc.vals ++ [st.next] } wf1 hreg1 with
    ⟨wf2, hlen2, hreg2, hother2, hpres2, hfresh2, hchar2⟩
  refine ⟨wf2, ?_, ?_⟩
  · intro vid mv' h1 h2
    rcases hchar2 vid mv' h1 with h3 | ⟨h3, h4⟩
    · rcases hchar1 vid mv' h3 with h4 | ⟨h4, h5⟩
      · rw [h2] at h4
        exact absurd h4 (by simp)
      · subst h4
        refine ⟨_, by simp [h5], hreg2, ?_⟩
        simp
    · refine ⟨_, h4, hreg2, ?_⟩
      simp [h3]
  · intro cid0 mc0 mc0' h1 h2
    by_cases hcc : cid0 = cid
    · subst hcc
      rw [h1] at hc
      injection hc with hc
      subst hc
      rw [hreg2] at h2
      injection h2 with h2
      refine ⟨[st.next] ++
        (createTrackedList (createTracked st iso0 cid0 thisV).1 iso0 cid0
          argsV).2, ?_⟩
      rw [← h2]
      simp [List.append_assoc]
    · rw [hother2 cid0 hcc, hother1 cid0 hcc, h1] at h2
      injection h2 with h2
      exact ⟨[], by simp [h2]⟩

theorem FunctionTemplateCallback_state {st : State} {gc : Nat → Nat}
    {gf : Nat → Nat → List Nat → Option Nat} {curCid cbRef : Nat}
    {thisV : V8Value} {argsV : List V8Value} {pr : State × CbOut}
    (h : FunctionTemplateCallback st gc gf curCid cbRef thisV argsV
      = some pr) :
    ∃ mcCur ctxRef, lookupA curCid st.ctxs = some mcCur ∧
      mcCur.embRef = some ctxRef ∧
      (∃ mcT, lookupA (gc ctxRef) st.ctxs = some mcT) ∧
      pr.1 = (createTrackedList
        (createTracked st mcCur.iso (gc ctxRef) thisV).1
        mcCur.iso (gc ctxRef) argsV).1 := by
  unfold FunctionTemplateCallback at h
  rcases Option.bind_eq_some.mp h with ⟨mcCur, hcur, h2⟩
  rcases Option.bind_eq_some.mp h2 with ⟨ctxRef, href, h3⟩
  rcases Option.bind_eq_some.mp h3 with ⟨mcT, hct, h4⟩
  refine ⟨mcCur, ctxRef, hcur, href, ⟨mcT, hct⟩, ?_⟩
  simp only [] at h4
  rcases h5 : gf ctxRef cbRef
      ((createTracked st mcCur.iso (gc ctxRef) thisV).2 ::
        (createTrackedList (createTracked st mcCur.iso (gc ctxRef) thisV).1
          mcCur.iso (gc ctxRef) argsV).2) with _ | rid
  · rw [h5] at h4
    simp only [Option.some_inj] at h4
    rw [← h4]
  · rw [h5] at h4
    simp only [] at h4
    rcases Option.map_eq_some'.mp h4 with ⟨mv, hmv, heq⟩
    rw [← heq]

theorem step_master {st : State} {op : Op} {st' : State} (hwf : WF st)
    (hstep : step st op = some st') :
    WF st' ∧
    (∀ vid mv', lookupA vid st'.values = some mv' →
      lookupA vid st.values = none →
      ∃ cid mc', opTarget st op = some cid ∧ mv'.ctx = some cid ∧
        lookupA cid st'.ctxs = some mc' ∧ vid ∈ mc'.vals) ∧
    (∀ cid mc mc', lookupA cid st.ctxs = some mc →
      lookupA cid st'.ctxs = some mc' → ∃ t, mc'.vals = mc.vals ++ t) := by
  cases op with
  | newIsolate =>
    simp only [step, Option.some_inj] at hstep
    subst hstep
    exact ⟨WF_NewIsolate hwf, step_noop_placed,
      step_cons_fresh_extends hwf (by omega)⟩
  | newContext iso gt r =>
    simp only [step, Option.some_inj] at hstep
    subst hstep
    exact ⟨WF_NewContext iso gt r hwf, step_noop_placed,
      step_cons_fresh_extends hwf (by omega)⟩
  | runScript cid source origin run =>
    simp only [step] at hstep
    rcases Option.map_eq_some'.mp hstep with ⟨pr, hpr, hst'⟩
    rcases Option.map_eq_some'.mp hpr with ⟨mc, hc, hg⟩
    cases run with
    | error tc =>
      rw [← hg] at hst'
      simp only [] at hst'
      subst hst'
      exact ⟨hwf, step_noop_placed, step_noop_extends⟩
    | ok v =>
      rw [← hg] at hst'
      simp only [] at hst'
      subst hst'
      rcases step_create_master mc.iso v hwf hc with ⟨w1, p1, e1⟩
      refine ⟨w1, ?_, e1⟩
      intro vid mv' h1 h2
      rcases p1 vid mv' h1 h2 with ⟨mc', hctx, hreg, hmem⟩
      exact ⟨cid, mc', rfl, hctx, hreg, hmem⟩
  | contextGlobal cid g =>
    simp only [step] at hstep
    rcases Option.map_eq_some'.mp hstep with ⟨pr, hpr, hst'⟩
    rcases Option.map_eq_some'.mp hpr with ⟨mc, hc, hg⟩
    rw [← hg] at hst'
    subst hst'
    rcases step_create_master mc.iso g hwf hc with ⟨w1, p1, e1⟩
    refine ⟨w1, ?_, e1⟩
    intro vid mv' h1 h2
    rcases p1 vid mv' h1 h2 with ⟨mc', hctx, hreg, hmem⟩
    exact ⟨cid, mc', rfl, hctx, hreg, hmem⟩
  | objectGetAnyKey rvid keyVid res =>
    simp only [step] at hstep
    rcases Option.map_eq_some'.mp hstep with ⟨pr, hpr, hst'⟩
    rcases Option.bind_eq_some.mp hpr with ⟨mv, hv, h2⟩
    rcases Option.bind_eq_some.mp h2 with ⟨cid, hres, h3⟩
    rcases Option.map_eq_some'.mp h3 with ⟨mc, hc, hg⟩
    cases res with
    | error tc =>
      rw [← hg] at hst'
      simp only [] at hst'
      subst hst'
      exact ⟨hwf, step_noop_placed, step_noop_extends⟩
    | ok v =>
      rw [← hg] at hst'
      simp only [] at hst'
      subst hst'
      rcases step_create_master mv.iso v hwf hc with ⟨w1, p1, e1⟩
      refine ⟨w1, ?_, e1⟩
      intro vid mv' h1 h2
      rcases p1 vid mv' h1 h2 with ⟨mc', hctx, hreg, hmem⟩
      refine ⟨cid, mc', ?_, hctx, hreg, hmem⟩
      simp only [opTarget]
      rw [hv]
      simpa using hres
  | objectTemplateNewInstance tm cid res =>
    simp only [step] at hstep
    rcases Option.map_eq_some'.mp hstep with ⟨pr, hpr, hst'⟩
    rcases Option.map_eq_some'.mp hpr with ⟨mc, hc, hg⟩
    cases res with
    | error tc =>
      rw [← hg] at hst'
      simp only [] at hst'
      subst hst'
      exact ⟨hwf, step_noop_placed, step_noop_extends⟩
    | ok v =>
      rw [← hg] at hst'
      simp only [] at hst'
      subst hst'
      rcases step_create_master tm.iso v hwf hc with ⟨w1, p1, e1⟩
      refine ⟨w1, ?_, e1⟩
      intro vid mv' h1 h2
      rcases p1 vid mv' h1 h2 with ⟨mc', hctx, hreg, hmem⟩
      exact ⟨cid, mc', rfl, hctx, hreg, hmem⟩
  | functionTemplateGetFunction tm cid res =>
    simp only [step] at hstep
    rcases Option.map_eq_some'.mp hstep with ⟨pr, hpr, hst'⟩
    rcases Option.map_eq_some'.mp hpr with ⟨mc, hc, hg⟩
    cases res with
    | error tc =>
      rw [← hg] at hst'
      simp only [] at hst'
      subst hst'
      exact ⟨hwf, step_noop_placed, step_noop_extends⟩
    | ok v =>
      rw [← hg] at hst'
      simp only [] at hst'
      subst hst'
      rcases step_create_master tm.iso v hwf hc with ⟨w1, p1, e1⟩
      refine ⟨w1, ?_, e1⟩
      intro vid mv' h1 h2
      rcases p1 vid mv' h1 h2 with ⟨mc', hctx, hreg, hmem⟩
      exact ⟨cid, mc', rfl, hctx, hreg, hmem⟩
  | newPromiseResolver cid res =>
    simp only [step] at hstep
    rcases Option.map_eq_some'.mp hstep with ⟨pr, hpr, hst'⟩
    rcases Option.map_eq_some'.mp hpr with ⟨mc, hc, hg⟩
    cases res with
    | error tc =>
      rw [← hg] at hst'
      simp only [] at hst'
      subst hst'
      exact ⟨hwf, step_noop_placed, step_noop_extends⟩
    | ok v =>
      rw [← hg] at hst'
      simp only [] at hst'
      subst hst'
      rcases step_create_master mc.iso v hwf hc with ⟨w1, p1, e1⟩
      refine ⟨w1, ?_, e1⟩
      intro vid mv' h1 h2
      rcases p1 vid mv' h1 h2 with ⟨mc', hctx, hreg, hmem⟩
      exact ⟨cid, mc', rfl, hctx, hreg, hmem⟩
  | promiseResolverGetPromise rvid promiseV =>
    simp only [step] at hstep
    rcases Option.map_eq_some'.mp hstep with ⟨pr, hpr, hst'⟩
    rcases Option.bind_eq_some.mp hpr with ⟨mv, hv, h2⟩
    rcases Option.bind_eq_some.mp h2 with ⟨cid, hres, h3⟩
    rcases Option.map_eq_some'.mp h3 with ⟨mc, hc, hg⟩
    rw [← hg] at hst'
    subst hst'
    rcases step_create_master mv.iso promiseV hwf hc with ⟨w1, p1, e1⟩
    refine ⟨w1, ?_, e1⟩
    intro vid mv' h1 h2
    rcases p1 vid mv' h1 h2 with ⟨mc', hctx, hreg, hmem⟩
    refine ⟨cid, mc', ?_, hctx, hreg, hmem⟩
    simp only [opTarget]
    rw [hv]
    simpa using hres
  | promiseThen rvid cbRef res =>
    simp only [step] at hstep
    rcases Option.map_eq_some'.mp hstep with ⟨pr, hpr, hst'⟩
    rcases Option.bind_eq_some.mp hpr with ⟨mv, hv, h2⟩
    rcases Option.bind_eq_some.mp h2 with ⟨cid, hres, h3⟩
    rcases Option.map_eq_some'.mp h3 with ⟨mc, hc, hg⟩
    cases res with
    | error tc =>
      rw [← hg] at hst'
      simp only [] at hst'
      subst hst'
      exact ⟨hwf, step_noop_placed, step_noop_extends⟩
    | ok v =>
      rw [← hg] at hst'
      simp only [] at hst'
      subst hst'
      rcases step_create_master mv.iso v hwf hc with ⟨w1, p1, e1⟩
      refine ⟨w1, ?_, e1⟩
      intro vid mv' h1 h2
      rcases p1 vid mv' h1 h2 with ⟨mc', hctx, hreg, hmem⟩
      refine ⟨cid, mc', ?_, hctx, hreg, hmem⟩
      simp only [opTarget]
      rw [hv]
      simpa using hres
  | functionCall rvid recvVid argVids res =>
    simp only [step] at hstep
    rcases Option.map_eq_some'.mp hstep with ⟨pr, hpr, hst'⟩
    rcases Option.bind_eq_some.mp hpr with ⟨mv, hv, h2⟩
    rcases Option.bind_eq_some.mp h2 with ⟨cid, hres, h3⟩
    rcases Option.map_eq_some'.mp h3 with ⟨mc, hc, hg⟩
    cases res with
    | error tc =>
      rw [← hg] at hst'
      simp only [] at hst'
      subst hst'
      exact ⟨hwf, step_noop_placed, step_noop_extends⟩
    | ok v =>
      rw [← hg] at hst'
      simp only [] at hst'
      subst hst'
      rcases step_create_master mv.iso v hwf hc with ⟨w1, p1, e1⟩
      refine ⟨w1, ?_, e1⟩
      intro vid mv' h1 h2
      rcases p1 vid mv' h1 h2 with ⟨mc', hctx, hreg, hmem⟩
      refine ⟨cid, mc', ?_, hctx, hreg, hmem⟩
      simp only [opTarget]
      rw [hv]
      simpa using hres
  | fnTemplateCallback gc gf curCid cbRef thisV argsV =>
    simp only [step] at hstep
    rcases Option.map_eq_some'.mp hstep with ⟨pr, hpr, hst'⟩
    rcases FunctionTemplateCallback_state hpr with
      ⟨mcCur, ctxRef, hcur, href, ⟨mcT, hct⟩, hpr1⟩
    rw [hpr1] at hst'
    subst hst'
    rcases step_callback_master mcCur.iso thisV argsV hwf hct with
      ⟨w1, p1, e1⟩
    refine ⟨w1, ?_, e1⟩
    intro vid mv' h1 h2
    rcases p1 vid mv' h1 h2 with ⟨mc', hctx, hreg, hmem⟩
    refine ⟨gc ctxRef, mc', ?_, hctx, hreg, hmem⟩
    simp only [opTarget]
    rw [hcur]
    simp [href]
  | newValueInteger iso n =>
    simp only [step] at hstep
    rcases Option.map_eq_some'.mp hstep with ⟨pr, hpr, hst'⟩
    rcases Option.bind_eq_some.mp hpr with ⟨cid, hint, h2⟩
    rcases Option.map_eq_some'.mp h2 with ⟨mc, hc, hg⟩
    rw [← hg] at hst'
    subst hst'
    rcases step_create_master iso (.vInt n) hwf hc with ⟨w1, p1, e1⟩
    refine ⟨w1, ?_, e1⟩
    intro vid mv' h1 h2
    rcases p1 vid mv' h1 h2 with ⟨mc', hctx, hreg, hmem⟩
    exact ⟨cid, mc', hint, hctx, hreg, hmem⟩
  | newValueNull iso =>
    simp only [step] at hstep
    rcases Option.map_eq_some'.mp hstep with ⟨pr, hpr, hst'⟩
    rcases Option.bind_eq_some.mp hpr with ⟨cid, hint, h2⟩
    rcases Option.map_eq_some'.mp h2 with ⟨mc, hc, hg⟩
    rw [← hg] at hst'
    subst hst'
    rcases step_create_master iso .vNull hwf hc with ⟨w1, p1, e1⟩
    refine ⟨w1, ?_, e1⟩
    intro vid mv' h1 h2
    rcases p1 vid mv' h1 h2 with ⟨mc', hctx, hreg, hmem⟩
    exact ⟨cid, mc', hint, hctx, hreg, hmem⟩
  | builtinSymbol iso idx =>
    simp only [step] at hstep
    rcases Option.map_eq_some'.mp hstep with ⟨pr, hpr, hst'⟩
    rcases Option.bind_eq_some.mp hpr with ⟨cid, hint, h2⟩
    rcases Option.map_eq_some'.mp h2 with ⟨mc, hc, hg⟩
    rcases hsym : symbolOf idx with _ | s
    · rw [hsym] at hg
      simp only [] at hg
      rw [← hg] at hst'
      simp only [] at hst'
      subst hst'
      exact ⟨hwf, step_noop_placed, step_noop_extends⟩
    · rw [hsym] at hg
      simp only [] at hg
      rw [← hg] at hst'
      simp only [] at hst'
      subst hst'
      rcases step_create_master iso s hwf hc with ⟨w1, p1, e1⟩
      refine ⟨w1, ?_, e1⟩
      intro vid mv' h1 h2
      rcases p1 vid mv' h1 h2 with ⟨mc', hctx, hreg, hmem⟩
      exact ⟨cid, mc', hint, hctx, hreg, hmem⟩
  | newValueError iso idx msg =>
    simp only [step] at hstep
    rcases Option.map_eq_some'.mp hstep with ⟨pr, hpr, hst'⟩
    rcases Option.bind_eq_some.mp hpr with ⟨cid, hint, h2⟩
    rcases Option.map_eq_some'.mp h2 with ⟨mc, hc, hg⟩
    rcases herr : errExceptionOf idx msg with _ | v
    · rw [herr] at hg
      simp only [] at hg
      rw [← hg] at hst'
      simp only [] at hst'
      subst hst'
      exact ⟨hwf, step_noop_placed, step_noop_extends⟩
    · rw [herr] at hg
      simp only [] at hg
      rw [← hg] at hst'
      simp only [] at hst'
      subst hst'
      rcases step_create_master iso v hwf hc with ⟨w1, p1, e1⟩
      refine ⟨w1, ?_, e1⟩
      intro vid mv' h1 h2
      rcases p1 vid mv' h1 h2 with ⟨mc', hctx, hreg, hmem⟩
      exact ⟨cid, mc', hint, hctx, hreg, hmem⟩
  | contextFree p =>
    cases p with
    | none =>
      simp only [step, ContextFree, Option.map_some', Option.some_inj]
        at hstep
      subst hstep
      exact ⟨hwf, step_noop_placed, step_noop_extends⟩
    | some cid =>
      simp only [step, ContextFree] at hstep
      rcases Option.map_eq_some'.mp hstep with ⟨pr, hpr, hst'⟩
      rcases Option.map_eq_some'.mp hpr with ⟨mc, hc, hg⟩
      rw [← hg] at hst'
      simp only [] at hst'
      subst hst'
      refine ⟨WF_ContextFree hwf hc, ?_, ?_⟩
      · intro vid mv' h1 h2
        have hmem : (vid, mv') ∈ st.values :=
          (List.mem_filter.mp (lookupA_mem h1)).1
        have := lookupA_eq_of_mem_nodup hwf.nodupV hmem
        rw [h2] at this
        exact absurd this (by simp)
      · intro cid0 mc0 mc0' h1 h2
        simp only [] at h2
        by_cases hcc : cid0 = cid
        · subst hcc
          rw [lookupA_remove_self] at h2
          exact absurd h2 (by simp)
        · rw [lookupA_remove_ne _ hcc, h1] at h2
          injection h2 with h2
          exact ⟨[], by simp [h2]⟩

/-- Claim C1: tracked_value returns the very same wrapper, its only
registry effect is appending that wrapper to the given sandbox's
registry (value heap and other registries untouched), and across every
modelled operation a registry that stays live only grows (the old
registry is a prefix of the new one). -/
theorem c1_track_appends (st0 : State) (cid0 vid0 : Nat) :
    (tracked_value st0 cid0 vid0).2 = vid0 ∧
    (tracked_value st0 cid0 vid0).1.values = st0.values ∧
    (∀ mc, lookupA cid0 st0.ctxs = some mc →
      lookupA cid0 (tracked_value st0 cid0 vid0).1.ctxs =
        some { mc with vals := mc.vals ++ [vid0] }) ∧
    (∀ c', c' ≠ cid0 →
      lookupA c' (tracked_value st0 cid0 vid0).1.ctxs =
        lookupA c' st0.ctxs) ∧
    (∀ st op st' cid mc mc', WF st → step st op = some st' →
      lookupA cid st.ctxs = some mc → lookupA cid st'.ctxs = some mc' →
      ∃ t, mc'.vals = mc.vals ++ t) := by
  refine ⟨rfl, rfl, ?_, ?_, ?_⟩
  · intro mc hc
    simp only [tracked_value]
    rw [lookupA_update_self, hc]
    rfl
  · intro c' hcc
    simp only [tracked_value]
    exact lookupA_update_ne _ _ hcc
  · intro st op st' cid mc mc' hwf hstep hc hc'
    exact (step_master hwf hstep).2.2 cid mc mc' hc hc'

/-- Claim C2: freeSandbox is a safe no-op on a null sandbox handle and
idempotent — after freeing, the handle is null, so a second call is the
null no-op; on a live sandbox it emits the release trace that resets the
global-scope handle first and then releases every tracked wrapper in
registration order, after which the sandbox is gone from the heap. -/
theorem c2_freeSandbox_idempotent (st : State) (cid : Nat) (mc : MCtx)
    (hc : lookupA cid st.ctxs = some mc) :
    freeSandbox st none = some ((st, none), []) ∧
    ∃ st', freeSandbox st (some cid) =
        some ((st', none), .scope :: mc.vals.map .value) ∧
      lookupA cid st'.ctxs = none ∧
      freeSandbox st' none = some ((st', none), []) := by
  refine ⟨rfl, { st with
      ctxs := removeA cid st.ctxs,
      values := st.values.filter (fun q => decide (q.1 ∉ mc.vals)) },
    ?_, ?_, rfl⟩
  · simp only [freeSandbox, ContextFree_some_eq hc, Option.map_some']
  · exact lookupA_remove_self _ _

/-- Claim C3: every modelled operation preserves registry
well-formedness — each live Value Wrapper sits in exactly one Handle
Registry, the one recorded in its ctx field — and any wrapper an
operation freshly creates is registered precisely in the operation's
target registry: the explicit sandbox where one is passed, the receiver
value's resolved sandbox for LOCAL_VALUE operations, the sandbox
recovered from the stamped identity for the callback bridge, and the
owning isolate's internal (default) sandbox for the sandbox-less value
constructors and builtin-symbol lookup. -/
theorem c3_registry_invariant (st : State) (op : Op) (st' : State)
    (hwf : WF st) (hstep : step st op = some st') :
    WF st' ∧
    ∀ vid mv', lookupA vid st'.values = some mv' →
      lookupA vid st.values = none →
      ∃ cid mc', opTarget st op = some cid ∧ mv'.ctx = some cid ∧
        lookupA cid st'.ctxs = some mc' ∧ vid ∈ mc'.vals :=
  ⟨(step_master hwf hstep).1, (step_master hwf hstep).2.1⟩

theorem WF_stIsoW : WF stIsoW := by
  refine ⟨?_, ?_, ?_, ?_, ?_, ?_, ?_⟩
  · decide
  · decide
  · decide
  · simp [stIsoW]
  · simp [stIsoW]
  · simp [stIsoW]
  · decide

/-- Witness for C3: on the one-isolate heap, NewValueInteger creates
wrapper 2 and registers it exactly in the internal sandbox (context 1),
as the invariant demands. -/
theorem c3_registry_invariant_w :
    ∃ cid mc',
      opTarget stIsoW (.newValueInteger 0 5) = some cid ∧
      (MValue.mk 0 (some 1) (.vInt 5)).ctx = some cid ∧
      lookupA cid (State.mk [(1, ⟨0, none, [2]⟩)]
        [(2, ⟨0, some 1, .vInt 5⟩)] [(0, 1)] 3).ctxs = some mc' ∧
      2 ∈ mc'.vals :=
  (c3_registry_invariant stIsoW (.newValueInteger 0 5)
      (State.mk [(1, ⟨0, none, [2]⟩)] [(2, ⟨0, some 1, .vInt 5⟩)]
        [(0, 1)] 3)
      WF_stIsoW (by decide)).2 2 ⟨0, some 1, .vInt 5⟩ (by decide) (by decide)

/-- Witness for C2 at a live sandbox holding two tracked wrappers: the
release trace is the scope reset followed by wrappers 2 and 3 in
registration order, and the nulled handle makes the second call a no-op. -/
theorem c2_freeSandbox_idempotent_w :
    freeSandbox stFreeW none = some ((stFreeW, none), []) ∧
    ∃ st', freeSandbox stFreeW (some 1) =
        some ((st', none),
          .scope :: ([2, 3] : List Nat).map RelEvent.value) ∧
      lookupA 1 st'.ctxs = none ∧
      freeSandbox st' none = some ((st', none), []) :=
  c2_freeSandbox_idempotent stFreeW 1 ⟨0, none, [2, 3]⟩ (by decide)

/-- Witness for C1 on the two-value heap: tracking wrapper 9 in sandbox
1 returns 9 and appends it behind the existing registrations. -/
theorem c1_track_appends_w :
    (tracked_value stFreeW 1 9).2 = 9 ∧
    lookupA 1 (tracked_value stFreeW 1 9).1.ctxs =
      some ⟨0, none, [2, 3] ++ [9]⟩ :=
  ⟨(c1_track_appends stFreeW 1 9).1,
   (c1_track_appends stFreeW 1 9).2.2.1 ⟨0, none, [2, 3]⟩ (by decide)⟩

/-- Claim C4: every successful bridge invocation wraps the receiver and
the n positional arguments as exactly n+1 fresh Value Wrappers, appends
precisely them to the registry of the sandbox recovered from the stamped
identity through the Go-side context registry, dispatches by the
registration id with the identity and those wrapper ids, and sets the
result to the host's returned wrapper's value when non-null and to the
engine's undefined value when null. -/
theorem c4_callback_bridge (st : State) (gc : Nat → Nat)
    (gf : Nat → Nat → List Nat → Option Nat) (curCid cbRef : Nat)
    (thisV : V8Value) (argsV : List V8Value) (st' : State) (out : CbOut)
    (mcCur : MCtx) (r : Nat) (mcT : MCtx) (hwf : WF st)
    (hcur : lookupA curCid st.ctxs = some mcCur)
    (href : mcCur.embRef = some r)
    (htgt : lookupA (gc r) st.ctxs = some mcT)
    (hrun : FunctionTemplateCallback st gc gf curCid cbRef thisV argsV =
      some (st', out)) :
    out.thisAndArgs.length = argsV.length + 1 ∧
    (∀ vid ∈ out.thisAndArgs, lookupA vid st.values = none) ∧
    lookupA (gc r) st'.ctxs =
      some { mcT with vals := mcT.vals ++ out.thisAndArgs } ∧
    out.dispatchCtxRef = r ∧ out.dispatchCbRef = cbRef ∧
    out.dispatchArgsCount = argsV.length ∧
    (gf r cbRef out.thisAndArgs = none → out.result = .vUndef) ∧
    (∀ rid, gf r cbRef out.thisAndArgs = some rid →
      ∃ mv, lookupA rid st'.values = some mv ∧ out.result = mv.ptr) := by
  unfold FunctionTemplateCallback at hrun
  rw [hcur] at hrun
  simp only [Option.bind] at hrun
  rw [href] at hrun
  simp only [Option.bind] at hrun
  rw [htgt] at hrun
  simp only [Option.bind] at hrun
  rcases createTracked_spec mcCur.iso thisV hwf htgt with
    ⟨wf1, hid, hreg1, hother1, hpres1, hfn, hlkNew, hchar1, hint1, hnx1⟩
  rcases createTrackedList_spec mcCur.iso (gc r) argsV
      (createTracked st mcCur.iso (gc r) thisV).1
      { mcT with vals := mcT.vals ++ [st.next] } wf1 hreg1 with
    ⟨wf2, hlen2, hreg2, hother2, hpres2, hfresh2, hchar2⟩
  rcases hgf : gf r cbRef
      ((createTracked st mcCur.iso (gc r) thisV).2 ::
        (createTrackedList (createTracked st mcCur.iso (gc r) thisV).1
          mcCur.iso (gc r) argsV).2) with _ | rid
  · rw [hgf] at hrun
    simp only [Option.some_inj, Prod.mk.injEq] at hrun
    obtain ⟨h1, h2⟩ := hrun
    subst h1
    subst h2
    refine ⟨by simp [hlen2], ?_, ?_, rfl, rfl, rfl, fun _ => rfl, ?_⟩
    · intro vid hvid
      simp only [List.mem_cons] at hvid
      rcases hvid with h3 | h3
      · rw [h3, hid]
        exact hfn
      · have hn := hfresh2 vid h3
        cases h4 : lookupA vid st.values with
        | none => rfl
        | some mv =>
          rw [hpres1 vid mv h4] at hn
          exact absurd hn (by simp)
    · rw [hreg2]
      simp [hid, List.append_assoc]
    · intro rid hrid
      rw [hgf] at hrid
      exact absurd hrid (by simp)
  · rw [hgf] at hrun
    simp only [] at hrun
    rcases Option.map_eq_some'.mp hrun with ⟨mv, hmv, heq⟩
    simp only [Prod.mk.injEq] at heq
    obtain ⟨h1, h2⟩ := heq
    subst h1
    subst h2
    refine ⟨by simp [hlen2], ?_, ?_, rfl, rfl, rfl, ?_, ?_⟩
    · intro vid hvid
      simp only [List.mem_cons] at hvid
      rcases hvid with h3 | h3
      · rw [h3, hid]
        exact hfn
      · have hn := hfresh2 vid h3
        cases h4 : lookupA vid st.values with
        | none => rfl
        | some mv0 =>
          rw [hpres1 vid mv0 h4] at hn
          exact absurd hn (by simp)
    · rw [hreg2]
      simp [hid, List.append_assoc]
    · intro hnone
      rw [hgf] at hnone
      exact absurd hnone (by simp)
    · intro rid' hrid'
      rw [hgf] at hrid'
      injection hrid' with hrid'
      subst hrid'
      exact ⟨mv, hmv, rfl⟩

theorem WF_stCbW : WF stCbW := by
  refine ⟨?_, ?_, ?_, ?_, ?_, ?_, ?_⟩
  · decide
  · decide
  · decide
  · simp [stCbW]
  · simp [stCbW]
  · simp [stCbW]
  · decide

/-- Witness for C4: a one-argument invocation in the stamped context
with a host that returns null creates wrappers 3 and 4 (receiver first),
appends exactly them to context 2's registry, and falls back to the
undefined result. -/
theorem c4_callback_bridge_w :
    (CbOut.mk [3, 4] 77 9 1 .vUndef).thisAndArgs.length =
      ([V8Value.vInt 1] : List V8Value).length + 1 ∧
    lookupA ((fun _ => 2) 77)
      (State.mk [(2, ⟨0, some 77, [3, 4]⟩), (1, ⟨0, none, []⟩)]
        [(4, ⟨0, some 2, .vInt 1⟩), (3, ⟨0, some 2, .vUndef⟩)]
        [(0, 1)] 5).ctxs =
      some ⟨0, some 77, [] ++ (CbOut.mk [3, 4] 77 9 1 .vUndef).thisAndArgs⟩ :=
  ⟨(c4_callback_bridge stCbW (fun _ => 2) (fun _ _ _ => none) 2 9 .vUndef
      [.vInt 1]
      (State.mk [(2, ⟨0, some 77, [3, 4]⟩), (1, ⟨0, none, []⟩)]
        [(4, ⟨0, some 2, .vInt 1⟩), (3, ⟨0, some 2, .vUndef⟩)] [(0, 1)] 5)
      (CbOut.mk [3, 4] 77 9 1 .vUndef) ⟨0, some 77, []⟩ 77 ⟨0, some 77, []⟩
      WF_stCbW (by decide) (by decide) (by decide) (by decide)).1,
   (c4_callback_bridge stCbW (fun _ => 2) (fun _ _ _ => none) 2 9 .vUndef
      [.vInt 1]
      (State.mk [(2, ⟨0, some 77, [3, 4]⟩), (1, ⟨0, none, []⟩)]
        [(4, ⟨0, some 2, .vInt 1⟩), (3, ⟨0, some 2, .vUndef⟩)] [(0, 1)] 5)
      (CbOut.mk [3, 4] 77 9 1 .vUndef) ⟨0, some 77, []⟩ 77 ⟨0, some 77, []⟩
      WF_stCbW (by decide) (by decide) (by decide) (by decide)).2.2.1⟩

/-- Claim C7: JSONStringify resolves its serialisation scope as the
supplied sandbox when present, else the value's own sandbox, else the
internal sandbox of the value's isolate; an engine serialisation failure
is reported by the nullptr sentinel, not an error record. -/
theorem c7_stringify_scope (st : State) (p : Option Nat) (vid : Nat)
    (engine : Nat → V8Value → Option String) (mv : MValue)
    (hv : lookupA vid st.values = some mv) :
    (∀ cid, p = some cid → jsonScope st p mv = some cid) ∧
    (p = none → ∀ cid, mv.ctx = some cid → jsonScope st p mv = some cid) ∧
    (p = none → mv.ctx = none →
      jsonScope st p mv = lookupA mv.iso st.internalOf) ∧
    (∀ cid mc, jsonScope st p mv = some cid →
      lookupA cid st.ctxs = some mc → engine cid mv.ptr = none →
      JSONStringify st p vid engine = some none) := by
  refine ⟨?_, ?_, ?_, ?_⟩
  · intro cid hp
    subst hp
    rfl
  · intro hp cid hctx
    subst hp
    simp [jsonScope, hctx]
  · intro hp hctx
    subst hp
    simp [jsonScope, hctx]
  · intro cid mc hsc hcm heng
    simp [JSONStringify, hv, hsc, hcm, heng]

/-- Witness for C7 on a heap with one registered value: its missing
sandbox argument resolves to the value's own sandbox (context 1), and a
failing serializer yields the nullptr sentinel. -/
theorem c7_stringify_scope_w :
    jsonScope (State.mk [(1, ⟨0, none, [2]⟩)] [(2, ⟨0, some 1, .vInt 5⟩)]
        [(0, 1)] 3) none ⟨0, some 1, .vInt 5⟩ = some 1 ∧
    JSONStringify (State.mk [(1, ⟨0, none, [2]⟩)]
        [(2, ⟨0, some 1, .vInt 5⟩)] [(0, 1)] 3) none 2
      (fun _ _ => none) = some none :=
  ⟨(c7_stringify_scope
      (State.mk [(1, ⟨0, none, [2]⟩)] [(2, ⟨0, some 1, .vInt 5⟩)]
        [(0, 1)] 3) none 2 (fun _ _ => none) ⟨0, some 1, .vInt 5⟩
      (by decide)).2.1 rfl 1 rfl,
   (c7_stringify_scope
      (State.mk [(1, ⟨0, none, [2]⟩)] [(2, ⟨0, some 1, .vInt 5⟩)]
        [(0, 1)] 3) none 2 (fun _ _ => none) ⟨0, some 1, .vInt 5⟩
      (by decide)).2.2.2 1 ⟨0, none, [2]⟩ (by decide) (by decide) rfl⟩

/-- Claim C10: NewValueError with an index outside the fixed error
taxonomy takes the switch default — it returns the null handle with the
whole heap (so every Handle Registry) unchanged, no value allocated or
registered. -/
theorem c10_error_default (st : State) (iso idx : Nat) (msg : String)
    (cid : Nat) (mc : MCtx) (hint : lookupA iso st.internalOf = some cid)
    (hcm : lookupA cid st.ctxs = some mc) (hidx : idx = 0 ∨ 9 ≤ idx) :
    NewValueError st iso idx msg = some (st, none) := by
  have herr : errExceptionOf idx msg = none := by
    simp only [errExceptionOf]
    split_ifs with h1 h2 h3 h4 h5 h6 h7 h8
    all_goals first
      | rfl
      | (exfalso
         rcases hidx with h | h <;> omega)
  simp [NewValueError, hint, hcm, herr]

/-- Witness for C10 at index 9 (one past the taxonomy) on the
one-isolate heap: the state comes back untouched with a null handle. -/
theorem c10_error_default_w :
    NewValueError stIsoW 0 9 ("boom") = some (stIsoW, none) :=
  c10_error_default stIsoW 0 9 ("boom") 1 ⟨0, none, []⟩ (by decide)
    (by decide) (Or.inr (by omega))
